import Mathlib

/- Shallow embedding of the multi-person profile store (store_org.py) and of
the performance/contribution model layer (performance_models.py).

Modelling conventions:
- JSON-like Python values are modelled by `Val`; Python dicts are association
  lists with unique keys (Python dict keys are unique by construction).
- Python floats are idealized as rationals.
- Timestamps (`_get_timestamp()` / `_now()`) and freshly generated uuid
  fragments are external nondeterminism and are passed in as explicit
  parameters.
- `save_org_store` performs JSON file I/O and returns True on success; here
  persistence is modelled as always succeeding, so the functions return the
  new store value together with the Bool the Python function returns. -/

inductive Val : Type where
  | vNull : Val
  | vBool : Bool → Val
  | vNum : ℚ → Val
  | vStr : String → Val
  | vList : List Val → Val
  | vDict : List (String × Val) → Val
deriving Repr

/-- Python truthiness of a JSON-like value (`if value:`): None, False, 0,
empty string, empty list and empty dict are falsy. -/
def truthy : Val → Bool
  | Val.vNull => false
  | Val.vBool b => b
  | Val.vNum q => q ≠ 0
  | Val.vStr s => s ≠ ""
  | Val.vList l => ¬ l.isEmpty
  | Val.vDict d => ¬ d.isEmpty

/-- Python `str(value)`. For strings it is the identity; the remaining scalar
renderings follow Python; composite values are abbreviated (no code path in
the embedded claims renders a composite value). -/
def pyStr : Val → String
  | Val.vStr s => s
  | Val.vNull => "None"
  | Val.vBool b => if b then "True" else "False"
  | Val.vNum q => toString q
  | Val.vList _ => "[...]"
  | Val.vDict _ => "\x7b...\x7d"

/-- Python `value == "未提及"` (equality against the "not provided" sentinel
string; False for every non-string value). -/
def isSentinel : Val → Bool
  | Val.vStr s => s = "未提及"
  | _ => false

/-- `d.get(k)` / `d[k]` lookup on a dict. -/
def dictGet (d : List (String × Val)) (k : String) : Option Val :=
  (d.find? (fun p => p.1 = k)).map (fun p => p.2)

/-- `d[k] = v` on a Python dict: replace in place if the key exists, else
append (Python dicts preserve insertion order). -/
def dictSet (d : List (String × Val)) (k : String) (v : Val) : List (String × Val) :=
  if (d.find? (fun p => p.1 = k)).isSome then
    d.map (fun p => if p.1 = k then (k, v) else p)
  else
    d ++ [(k, v)]

/-- `d.update(other)`: apply `dictSet` for each item of `other` in order. -/
def dictUpdate (d other : List (String × Val)) : List (String × Val) :=
  other.foldl (fun acc kv => dictSet acc kv.1 kv.2) d

/-- Characters removed by `_normalize_phone`'s `re.sub(r"[\s\-\(\)]+", "", ·)`
(whitespace, hyphen, parentheses). -/
def isPhoneStripChar (c : Char) : Bool :=
  c = ' ' ∨ c = '\t' ∨ c = '\n' ∨ c = '\r' ∨ c = '\x0b' ∨ c = '\x0c' ∨
  c = '-' ∨ c = '(' ∨ c = ')'

/-- `_normalize_phone`: `""` for falsy input or the sentinel, otherwise
`str(phone)` stripped of whitespace/hyphen/parenthesis characters (the
`.strip()` in the source is subsumed by the global character removal). -/
def normalize_phone (phone : Val) : String :=
  if truthy phone = false ∨ isSentinel phone then ""
  else String.mk (((pyStr phone).toList).filter (fun c => isPhoneStripChar c = false))

/-- `_normalize_email`: `""` for falsy input or the sentinel, otherwise
`str(email).strip().lower()`. -/
def normalize_email (email : Val) : String :=
  if truthy email = false ∨ isSentinel email then ""
  else ((pyStr email).trim).toLower

/-- `_compute_dedup_key` (phone_then_email strategy); only the `"key"` field
is modelled, the `"strategy"` field is the constant `"phone_then_email"`. -/
def compute_dedup_key (phone email : Val) : String :=
  let norm_phone := normalize_phone phone
  let norm_email := normalize_email email
  if norm_phone ≠ "" then "phone:" ++ norm_phone
  else if norm_email ≠ "" then "email:" ++ norm_email
  else ""

def phone_keys : List String := ["电话", "联系电话", "手机", "phone", "tel", "mobile"]

def email_keys : List String := ["邮箱", "联系邮箱", "email", "e-mail"]

/-- The alias-probing loop of `_extract_contact_from_profile`:
`if key in profile_data and profile_data[key]: x = str(profile_data[key]); break`. -/
def probeKeys (d : List (String × Val)) : List String → Option Val
  | [] => none
  | k :: rest =>
    match dictGet d k with
    | some v => if truthy v then some (Val.vStr (pyStr v)) else probeKeys d rest
    | none => probeKeys d rest

/-- `_extract_contact_from_profile`: returns the raw `(phone, email)` values
found under the alias keys (the probing loops wrap hits in `str(...)`; the
nested `联系方式` sub-dict fallback returns raw values, as in the source). -/
def extract_contact_from_profile (profile_data : Val) : Val × Val :=
  match profile_data with
  | Val.vDict pd =>
    let phone : Val := (probeKeys pd phone_keys).getD (Val.vStr "")
    let pe : Val × Val :=
      match dictGet pd "联系方式" with
      | some (Val.vDict c) =>
        let phone := if truthy phone then phone else (dictGet c "电话").getD (Val.vStr "")
        let email := (dictGet c "邮箱").getD (Val.vStr "")
        (phone, email)
      | _ => (phone, Val.vStr "")
    let email := (probeKeys pd email_keys).getD pe.2
    (pe.1, email)
  | _ => (Val.vStr "", Val.vStr "")

/- ==================== Data model ==================== -/

/-- A performance event (shape produced by `build_event` in
performance_models.py); `group_id = none` models Python `None` (a global
event). -/
structure Event where
  id : String
  type : String
  delta : ℚ
  title : String
  note : String
  group_id : Option String
  at_ : String
deriving Repr, DecidableEq

/-- A person's performance ledger: `{base_score, events, updated_at}`. -/
structure Performance where
  base_score : ℚ
  events : List Event
  updated_at : String
deriving Repr, DecidableEq

/-- A membership record embedded in a person (named `MembershipRec` because `Membership` is taken by the ambient library). -/
structure MembershipRec where
  group_id : String
  joined_at : String
  updated_at : String
  fields : List (String × Val)
deriving Repr

/-- A `{type, imported_at}` provenance entry of a person's `sources` list. -/
structure SourceEntry where
  type : String
  imported_at : String
deriving Repr, DecidableEq

/-- A person record. `dedupKey` models `person["dedup"]["key"]` (the
`"strategy"` field is the constant `"phone_then_email"`). `name` is kept as a
raw `Val` because `upsert_person` stores `profile_data.get("姓名", "未知")`
unconverted. `performance` is optional: people coming out of the v1 migration
have no performance field until `_migrate_v2_to_v3` backfills it. -/
structure Person where
  id : String
  name : Val
  phone : String
  email : String
  dedupKey : String
  created_at : String
  updated_at : String
  profile : Val
  sources : List SourceEntry
  memberships : List MembershipRec
  performance : Option Performance
deriving Repr

/-- A group record (named `GroupRec` because `Group` is taken by the ambient library). -/
structure GroupRec where
  id : String
  name : String
  description : String
  tags : List String
  created_at : String
  updated_at : String
deriving Repr, DecidableEq

/-- The OrgStore document (the `org` singleton and `_schema_version` carry no
behaviour relevant to the embedded operations and are omitted). -/
structure Store where
  groups : List GroupRec
  people : List Person
deriving Repr

/-- `_create_empty_org_store` (groups/people part). -/
def empty_org_store : Store := { groups := [], people := [] }

/- ==================== performance_models.py ==================== -/

/-- `EVENT_TYPE_CONTRIBUTION`. -/
def EVENT_TYPE_CONTRIBUTION : String := "contribution"

/-- `empty_performance()`: base 0, no events. -/
def empty_performance (now : String) : Performance :=
  { base_score := 0, events := [], updated_at := now }

/-- `ensure_performance(person)`: backfill a missing ledger. In this typed
embedding an existing `Performance` value is always structurally valid, so
the per-field backfill of the source collapses to the missing-ledger case. -/
def ensure_performance (p : Person) (now : String) : Person :=
  match p.performance with
  | none => { p with performance := some (empty_performance now) }
  | some _ => p

/-- `compute_current_score(perf) = base_score + sum(events[].delta)`. -/
def compute_current_score (perf : Performance) : ℚ :=
  perf.base_score + (perf.events.map (fun e => e.delta)).sum

/-- The summary dict returned by `get_summary`. -/
structure Summary where
  base_score : ℚ
  current_score : ℚ
  contribution_total : ℚ
  contribution_count : Nat
  event_count : Nat
  last_updated : String
deriving Repr, DecidableEq

/-- Python truthiness of an `Optional[str]` argument (`if group_id:`):
`None` and `""` are falsy. -/
def optStrTruthy : Option String → Bool
  | none => false
  | some s => s ≠ ""

/-- The event filter used by `get_summary` and `filter_events`:
`e.get("group_id") == group_id or e.get("group_id") is None`. -/
def eventInScope (group_id : Option String) (e : Event) : Bool :=
  e.group_id = group_id ∨ e.group_id = none

/-- `get_summary(perf, group_id)`: when `group_id` is truthy, restrict to
events whose `group_id` matches or is `None`, then aggregate. -/
def get_summary (perf : Performance) (group_id : Option String) : Summary :=
  let events :=
    if optStrTruthy group_id then perf.events.filter (eventInScope group_id)
    else perf.events
  let base := perf.base_score
  let total_delta := (events.map (fun e => e.delta)).sum
  let contrib_delta :=
    ((events.filter (fun e => e.type = EVENT_TYPE_CONTRIBUTION)).map (fun e => e.delta)).sum
  let contrib_count := (events.filter (fun e => e.type = EVENT_TYPE_CONTRIBUTION)).length
  { base_score := base,
    current_score := base + total_delta,
    contribution_total := contrib_delta,
    contribution_count := contrib_count,
    event_count := events.length,
    last_updated := perf.updated_at }

/- ==================== store_org.py: operations ==================== -/

/-- In-place update of the first list element satisfying `pred` (the
`for ...: if ...: mutate; break` pattern of the source). -/
def updateFirst {α : Type} (pred : α → Bool) (f : α → α) : List α → List α
  | [] => []
  | x :: xs => if pred x then f x :: xs else x :: updateFirst pred f xs

/-- `rename_group`: rename the first group with the given id; `False` (store
unchanged) when no group matches. -/
def rename_group (store : Store) (group_id new_name now : String) : Bool × Store :=
  if store.groups.any (fun g => g.id = group_id) then
    let groups' := updateFirst (fun g => g.id = group_id)
      (fun g => { g with name := new_name, updated_at := now }) store.groups
    (true, { store with groups := groups' })
  else (false, store)

/-- `delete_group`: drop the group and filter the memberships of every person;
returns the result of `save_org_store` (True) unconditionally. -/
def delete_group (store : Store) (group_id : String) : Bool × Store :=
  (true,
   { groups := store.groups.filter (fun g => ¬ (g.id = group_id)),
     people := store.people.map (fun p =>
       { p with memberships := p.memberships.filter (fun m => ¬ (m.group_id = group_id)) }) })

/-- `delete_person`: filter the people list; returns the result of
`save_org_store` (True) unconditionally. -/
def delete_person (store : Store) (person_id : String) : Bool × Store :=
  (true, { store with people := store.people.filter (fun p => ¬ (p.id = person_id)) })

/-- The profile-merge loop of `upsert_person` (store_org.py lines 411-414):
each incoming key whose value is truthy and not the sentinel overwrites the
stored value. -/
def merge_profile_dict (old pd : List (String × Val)) : List (String × Val) :=
  pd.foldl (fun acc kv =>
    if truthy kv.2 ∧ isSentinel kv.2 = false then dictSet acc kv.1 kv.2 else acc) old

/-- The merge branch of `upsert_person` (store_org.py lines 408-431): the
mutation applied to the matched existing person. -/
def merge_into_existing (p : Person) (profile_data : Val) (source : String)
    (membership : Option MembershipRec)
    (membership_fields : Option (List (String × Val))) (now : String) : Person :=
  let profile' :=
    match profile_data, p.profile with
    | Val.vDict pd, Val.vDict old => Val.vDict (merge_profile_dict old pd)
    | _, _ => p.profile
  let sources' := p.sources ++ [{ type := source, imported_at := now }]
  let memberships' :=
    match membership with
    | none => p.memberships
    | some m =>
      if p.memberships.any (fun ms => ms.group_id = m.group_id) then
        let updMs := fun (ms : MembershipRec) =>
          { ms with updated_at := now,
                    fields := dictUpdate ms.fields (membership_fields.getD []) }
        updateFirst (fun ms => ms.group_id = m.group_id) updMs p.memberships
      else p.memberships ++ [m]
  { p with updated_at := now, profile := profile', sources := sources',
           memberships := memberships' }

/-- The dedup-key scan of `upsert_person` / `_migrate_member_to_store`: find
the first person whose dedup key matches, apply `f` to it in place, and
return its id together with the updated list. -/
def upsert_match (key : String) (f : Person → Person) : List Person → Option (String × List Person)
  | [] => none
  | p :: ps =>
    if p.dedupKey = key then some (p.id, f p :: ps)
    else (upsert_match key f ps).map (fun r => (r.1, p :: r.2))

/-- The dedup key `upsert_person` computes from the incoming profile
(extraction followed by `_compute_dedup_key`). -/
def upsert_key (profile_data : Val) : String :=
  let pe := extract_contact_from_profile profile_data
  compute_dedup_key pe.1 pe.2

/-- The display-name derivation of `upsert_person` (`fresh4` is the uuid
fragment of a synthesized placeholder name). -/
def upsert_name (profile_data : Val) (fresh4 : String) : Val :=
  match profile_data with
  | Val.vDict pd =>
    let n := (dictGet pd "姓名").getD (Val.vStr "未知")
    if isSentinel n then Val.vStr ("成员_" ++ fresh4) else n
  | _ => Val.vStr "未知"

/-- The membership record `upsert_person` prepares when `group_id` is truthy
(`membership_fields or {"source": source}` falls back on a falsy argument). -/
def upsert_membership (source : String) (group_id : Option String)
    (membership_fields : Option (List (String × Val))) (now : String) :
    Option MembershipRec :=
  if optStrTruthy group_id then
    some { group_id := group_id.getD "", joined_at := now, updated_at := now,
           fields :=
             match membership_fields with
             | some f => if f.isEmpty then [("source", Val.vStr source)] else f
             | none => [("source", Val.vStr source)] }
  else none

/-- The new-person record of `upsert_person`'s create branch. -/
def upsert_new_person (profile_data : Val) (source : String)
    (group_id : Option String) (membership_fields : Option (List (String × Val)))
    (now fresh_id fresh4 : String) : Person :=
  let pe := extract_contact_from_profile profile_data
  { id := fresh_id, name := upsert_name profile_data fresh4,
    phone := normalize_phone pe.1, email := normalize_email pe.2,
    dedupKey := upsert_key profile_data, created_at := now, updated_at := now,
    profile := profile_data,
    sources := [{ type := source, imported_at := now }],
    memberships :=
      match upsert_membership source group_id membership_fields now with
      | some m => [m]
      | none => [],
    performance := some (empty_performance now) }

/-- `upsert_person(profile_data, source, group_id, membership_fields)`.
`now` stands for `_get_timestamp()`, `fresh_id` for the uuid of a new person
and `fresh4` for the uuid fragment of a synthesized placeholder name. -/
def upsert_person (store : Store) (profile_data : Val) (source : String)
    (group_id : Option String) (membership_fields : Option (List (String × Val)))
    (now fresh_id fresh4 : String) : (String × Bool) × Store :=
  let dedup_key := upsert_key profile_data
  let membership := upsert_membership source group_id membership_fields now
  let matched :=
    if dedup_key ≠ "" then
      upsert_match dedup_key
        (fun p => merge_into_existing p profile_data source membership membership_fields now)
        store.people
    else none
  match matched with
  | some r => ((r.1, false), { store with people := r.2 })
  | none =>
    let new_person := upsert_new_person profile_data source group_id membership_fields now fresh_id fresh4
    ((fresh_id, true), { store with people := store.people ++ [new_person] })

/-- Python truthiness of an `Optional[dict]` argument (`if fields:`). -/
def optDictTruthy : Option (List (String × Val)) → Bool
  | none => false
  | some d => ¬ d.isEmpty

/-- The mutation `add_person_to_group` applies to the matched person: update
the existing membership for the group (bump `updated_at`, merge truthy
`fields` into it) or append a fresh membership. -/
def add_to_group_update (p : Person) (group_id : String)
    (fields : Option (List (String × Val))) (now : String) : Person :=
  let updMs := fun (ms : MembershipRec) =>
    { ms with updated_at := now,
              fields := if optDictTruthy fields then
                          dictUpdate ms.fields (fields.getD [])
                        else ms.fields }
  let newMs : MembershipRec :=
    { group_id := group_id, joined_at := now, updated_at := now,
      fields := fields.getD [] }
  if p.memberships.any (fun ms => ms.group_id = group_id) then
    { p with memberships := updateFirst (fun ms => ms.group_id = group_id) updMs p.memberships }
  else
    { p with memberships := p.memberships ++ [newMs] }

/-- The people-list traversal of `add_person_to_group`; `none` models falling
off the loop without finding the person (return False). -/
def add_person_to_group_people (person_id group_id : String)
    (fields : Option (List (String × Val))) (now : String) :
    List Person → Option (List Person)
  | [] => none
  | p :: ps =>
    if p.id = person_id then
      some (add_to_group_update p group_id fields now :: ps)
    else (add_person_to_group_people person_id group_id fields now ps).map (fun l => p :: l)

/-- `add_person_to_group(person_id, group_id, fields)`. -/
def add_person_to_group (store : Store) (person_id group_id : String)
    (fields : Option (List (String × Val))) (now : String) : Bool × Store :=
  match add_person_to_group_people person_id group_id fields now store.people with
  | some people' => (true, { store with people := people' })
  | none => (false, store)

/-- The people-list traversal of `remove_person_from_group`. -/
def remove_person_from_group_people (person_id group_id : String) :
    List Person → Option (List Person)
  | [] => none
  | p :: ps =>
    if p.id = person_id then
      some ({ p with memberships :=
        p.memberships.filter (fun m => ¬ (m.group_id = group_id)) } :: ps)
    else (remove_person_from_group_people person_id group_id ps).map (fun l => p :: l)

/-- `remove_person_from_group(person_id, group_id)`. -/
def remove_person_from_group (store : Store) (person_id group_id : String) : Bool × Store :=
  match remove_person_from_group_people person_id group_id store.people with
  | some people' => (true, { store with people := people' })
  | none => (false, store)

/-- The people-list traversal of `update_membership_fields`: the source
returns only from inside the membership match, so a person with the right id
but no membership for the group falls through and scanning continues. -/
def update_membership_fields_people (person_id group_id : String)
    (fields : List (String × Val)) (now : String) : List Person → Option (List Person)
  | [] => none
  | p :: ps =>
    if p.id = person_id ∧ p.memberships.any (fun ms => ms.group_id = group_id) then
      let updMs := fun (ms : MembershipRec) =>
        { ms with updated_at := now, fields := dictUpdate ms.fields fields }
      let ms' := updateFirst (fun ms => ms.group_id = group_id) updMs p.memberships
      some ({ p with memberships := ms' } :: ps)
    else (update_membership_fields_people person_id group_id fields now ps).map (fun l => p :: l)

/-- `update_membership_fields(person_id, group_id, fields)`. -/
def update_membership_fields (store : Store) (person_id group_id : String)
    (fields : List (String × Val)) (now : String) : Bool × Store :=
  match update_membership_fields_people person_id group_id fields now store.people with
  | some people' => (true, { store with people := people' })
  | none => (false, store)

/-- The people-list traversal of `set_person_base_score`. -/
def set_person_base_score_people (person_id : String) (base_score : ℚ) (now : String) :
    List Person → Option (List Person)
  | [] => none
  | p :: ps =>
    if p.id = person_id then
      let q := ensure_performance p now
      let perf := q.performance.getD (empty_performance now)
      let perf' := { perf with base_score := base_score, updated_at := now }
      some ({ q with performance := some perf' } :: ps)
    else (set_person_base_score_people person_id base_score now ps).map (fun l => p :: l)

/-- `set_person_base_score(person_id, base_score)`. -/
def set_person_base_score (store : Store) (person_id : String) (base_score : ℚ)
    (now : String) : Bool × Store :=
  match set_person_base_score_people person_id base_score now store.people with
  | some people' => (true, { store with people := people' })
  | none => (false, store)

/-- The people-list traversal of `add_performance_event`. -/
def add_performance_event_people (person_id : String) (event : Event) (now : String) :
    List Person → Option (List Person)
  | [] => none
  | p :: ps =>
    if p.id = person_id then
      let q := ensure_performance p now
      let perf := q.performance.getD (empty_performance now)
      let perf' := { perf with events := perf.events ++ [event], updated_at := now }
      some ({ q with performance := some perf' } :: ps)
    else (add_performance_event_people person_id event now ps).map (fun l => p :: l)

/-- `add_performance_event(person_id, event)`. -/
def add_performance_event (store : Store) (person_id : String) (event : Event)
    (now : String) : Bool × Store :=
  match add_performance_event_people person_id event now store.people with
  | some people' => (true, { store with people := people' })
  | none => (false, store)

/-- The people-list traversal of `update_performance_event`. The Python dict
patch `event.update(patch)` is modelled by an arbitrary event transformer.
The source returns only from inside the event match, so a person with the
right id but no matching event falls through (ensure/filter mutations made on
that person are never saved, hence invisible in the persisted store). -/
def update_performance_event_people (person_id event_id : String) (patch : Event → Event)
    (now : String) : List Person → Option (List Person)
  | [] => none
  | p :: ps =>
    let q := ensure_performance p now
    let perf := q.performance.getD (empty_performance now)
    if p.id = person_id ∧ perf.events.any (fun e => e.id = event_id) then
      let events' := updateFirst (fun e => e.id = event_id) patch perf.events
      let perf' := { perf with events := events', updated_at := now }
      some ({ q with performance := some perf' } :: ps)
    else (update_performance_event_people person_id event_id patch now ps).map (fun l => p :: l)

/-- `update_performance_event(person_id, event_id, patch)`. -/
def update_performance_event (store : Store) (person_id event_id : String)
    (patch : Event → Event) (now : String) : Bool × Store :=
  match update_performance_event_people person_id event_id patch now store.people with
  | some people' => (true, { store with people := people' })
  | none => (false, store)

/-- The people-list traversal of `delete_performance_event` (the source
filters and then compares lengths: something was removed iff some event had
the id). -/
def delete_performance_event_people (person_id event_id : String) (now : String) :
    List Person → Option (List Person)
  | [] => none
  | p :: ps =>
    let q := ensure_performance p now
    let perf := q.performance.getD (empty_performance now)
    if p.id = person_id ∧ perf.events.any (fun e => e.id = event_id) then
      let events' := perf.events.filter (fun e => ¬ (e.id = event_id))
      let perf' := { perf with events := events', updated_at := now }
      some ({ q with performance := some perf' } :: ps)
    else (delete_performance_event_people person_id event_id now ps).map (fun l => p :: l)

/-- `delete_performance_event(person_id, event_id)`. -/
def delete_performance_event (store : Store) (person_id event_id : String)
    (now : String) : Bool × Store :=
  match delete_performance_event_people person_id event_id now store.people with
  | some people' => (true, { store with people := people' })
  | none => (false, store)

/- ==================== store_org.py: v1 migration ==================== -/

/-- A legacy (v1) member record; `none` fields model dict keys that
`old_member.get(...)` finds missing. -/
structure OldMember where
  id : Option String
  name : Option String
  source : Option String
  created_at : Option String
  profile : Option Val
deriving Repr

/-- A legacy (v1) team record of the `[{id, name, members: [...]}]` shape. -/
structure OldTeam where
  id : Option String
  name : Option String
  created_at : Option String
  members : List OldMember
deriving Repr

/-- The dedup key `_migrate_member_to_store` recomputes from the legacy
member's embedded profile (`old_member.get("profile", {})`). -/
def migrate_member_key (old_member : OldMember) : String :=
  let pe := extract_contact_from_profile (old_member.profile.getD (Val.vDict []))
  compute_dedup_key pe.1 pe.2

/-- The display-name derivation of `_migrate_member_to_store`. -/
def migrate_member_name (old_member : OldMember) : Val :=
  match old_member.profile.getD (Val.vDict []) with
  | Val.vDict pd =>
    let n := (dictGet pd "姓名").getD (Val.vStr (old_member.name.getD "未知"))
    if isSentinel n then
      Val.vStr (old_member.name.getD ("成员_" ++ (old_member.id.getD "").take 4))
    else n
  | _ => Val.vStr "未知"

/-- The membership record `_migrate_member_to_store` builds. -/
def migrate_membership (old_member : OldMember) (group_id now : String) : MembershipRec :=
  { group_id := group_id, joined_at := old_member.created_at.getD now, updated_at := now,
    fields := [("source", Val.vStr (old_member.source.getD "unknown"))] }

/-- The mutation `_migrate_member_to_store` applies to a matched existing
person: add the membership unless one for the group exists, bump
`updated_at`. -/
def migrate_update (membership : MembershipRec) (group_id now : String)
    (p : Person) : Person :=
  let p :=
    if p.memberships.any (fun m => m.group_id = group_id) then p
    else { p with memberships := p.memberships ++ [membership] }
  { p with updated_at := now }

/-- The new-person record of `_migrate_member_to_store`'s create branch
(people created by the v1 migration carry no performance ledger). -/
def migrate_new_person (old_member : OldMember) (group_id now fresh : String) : Person :=
  let pe := extract_contact_from_profile (old_member.profile.getD (Val.vDict []))
  { id := old_member.id.getD fresh, name := migrate_member_name old_member,
    phone := normalize_phone pe.1, email := normalize_email pe.2,
    dedupKey := migrate_member_key old_member, created_at := old_member.created_at.getD now,
    updated_at := now, profile := old_member.profile.getD (Val.vDict []),
    sources := [{ type := old_member.source.getD "unknown",
                  imported_at := old_member.created_at.getD now }],
    memberships := [migrate_membership old_member group_id now],
    performance := none }

/-- `_migrate_member_to_store(store, old_member, group_id)`; `fresh` supplies
the uuid fragment used when the legacy member carries no id. -/
def migrate_member_to_store (store : Store) (old_member : OldMember) (group_id : String)
    (now fresh : String) : Store :=
  let dedup_key := migrate_member_key old_member
  let membership := migrate_membership old_member group_id now
  let matched :=
    if dedup_key ≠ "" then
      upsert_match dedup_key (migrate_update membership group_id now) store.people
    else none
  match matched with
  | some r => { store with people := r.2 }
  | none =>
    { store with people := store.people ++ [migrate_new_person old_member group_id now fresh] }

/-- The member loop of the team-shaped branch of `_migrate_from_v1`;
`fresh n` supplies the n-th generated uuid fragment. -/
def migrate_members (now : String) (fresh : Nat → String) (group_id : String) :
    List OldMember → Nat → Store → Store
  | [], _, store => store
  | m :: rest, n, store =>
    migrate_members now fresh group_id rest (n + 1)
      (migrate_member_to_store store m group_id now (fresh n))

/-- The team loop of the team-shaped branch of `_migrate_from_v1`. -/
def migrate_teams (now : String) (fresh : Nat → String) :
    List OldTeam → Nat → Store → Store
  | [], _, store => store
  | t :: rest, n, store =>
    let gid := t.id.getD (fresh n)
    let new_group : GroupRec :=
      { id := gid, name := t.name.getD "默认小组", description := "", tags := [],
        created_at := t.created_at.getD now, updated_at := now }
    let store1 := { store with groups := store.groups ++ [new_group] }
    let store2 := migrate_members now fresh gid t.members (n + 1) store1
    migrate_teams now fresh rest (n + 1 + t.members.length) store2

/-- `_migrate_from_v1` restricted to the team-shaped v1 payload
(`[{id, name, members: [...]}]`, the first branch of the source). -/
def migrate_from_v1_teams (teams : List OldTeam) (now : String) (fresh : Nat → String) : Store :=
  migrate_teams now fresh teams 0 empty_org_store

/- ==================== Helper lemmas ==================== -/

/-- Lookup into a `Val` that, when the value is a dict, reads the key
(used to state claims about "the stored profile's value at a key"). -/
def profileGet : Val → String → Option Val
  | Val.vDict d, k => dictGet d k
  | _, _ => none

theorem upsert_match_eq_none (key : String) (f : Person → Person) :
    ∀ l : List Person, (∀ q ∈ l, q.dedupKey ≠ key) → upsert_match key f l = none := by
  intro l h
  induction l with
  | nil => rfl
  | cons p ps ih =>
    have hp : ¬ (p.dedupKey = key) := h p (by simp)
    have hps : ∀ q ∈ ps, q.dedupKey ≠ key := fun q hq => h q (by simp [hq])
    simp [upsert_match, hp, ih hps]

theorem upsert_match_split (key : String) (f : Person → Person) (pre post : List Person)
    (p : Person) (hpre : ∀ q ∈ pre, q.dedupKey ≠ key) (hp : p.dedupKey = key) :
    upsert_match key f (pre ++ p :: post) = some (p.id, pre ++ f p :: post) := by
  induction pre with
  | nil => simp [upsert_match, hp]
  | cons q qs ih =>
    have hq : ¬ (q.dedupKey = key) := hpre q (by simp)
    have hqs : ∀ r ∈ qs, r.dedupKey ≠ key := fun r hr => hpre r (by simp [hr])
    simp [upsert_match, hq, ih hqs]

theorem dictGet_dictSet_self (d : List (String × Val)) (k : String) (v : Val) :
    dictGet (dictSet d k v) k = some v := by
  unfold dictSet
  by_cases h : (d.find? (fun p => p.1 = k)).isSome
  · simp only [if_pos h]
    induction d with
    | nil => simp [List.find?] at h
    | cons x xs ih =>
      by_cases hx : x.1 = k
      · simp [dictGet, List.find?, hx]
      · have h' : (xs.find? (fun p => decide (p.1 = k))).isSome := by
          simpa [List.find?, hx] using h
        simpa [dictGet, List.find?, hx] using ih h'
  · simp only [if_neg h]
    induction d with
    | nil => simp [dictGet, List.find?]
    | cons x xs ih =>
      by_cases hx : x.1 = k
      · exfalso; apply h; simp [List.find?, hx]
      · have h' : ¬ (xs.find? (fun p => decide (p.1 = k))).isSome := by
          simp only [List.find?, hx, decide_eq_true_eq] at h ⊢
          simpa [hx] using h
        simpa [dictGet, List.find?, hx] using ih h'

theorem dictGet_map_replace (k k' : String) (v : Val) (hne : k' ≠ k) :
    ∀ xs : List (String × Val),
      dictGet (xs.map (fun p => if p.1 = k' then (k', v) else p)) k = dictGet xs k := by
  intro xs
  induction xs with
  | nil => rfl
  | cons x xs ih =>
    by_cases hx : x.1 = k'
    · have hxk : ¬ (x.1 = k) := by rw [hx]; exact hne
      simpa [dictGet, List.find?, hx, hne, hxk] using ih
    · by_cases hxk : x.1 = k
      · simp [dictGet, List.find?, hx, hxk, Ne.symm hne]
      · simpa [dictGet, List.find?, hx, hxk] using ih

theorem dictGet_dictSet_ne (d : List (String × Val)) (k k' : String) (v : Val)
    (hne : k' ≠ k) : dictGet (dictSet d k' v) k = dictGet d k := by
  unfold dictSet
  by_cases h : (d.find? (fun p => p.1 = k')).isSome
  · simp only [if_pos h]
    exact dictGet_map_replace k k' v hne d
  · simp only [if_neg h]
    unfold dictGet
    rw [List.find?_append]
    have hsi : List.find? (fun p => decide (p.1 = k)) [(k', v)] = none := by
      simp [List.find?, hne]
    simp [hsi]

theorem merge_profile_get_absent (pd : List (String × Val)) :
    ∀ (old : List (String × Val)) (k : String), k ∉ pd.map Prod.fst →
      dictGet (merge_profile_dict old pd) k = dictGet old k := by
  induction pd with
  | nil => intro old k _; rfl
  | cons kv rest ih =>
    intro old k hk
    have hk1 : kv.1 ≠ k := by
      intro h; apply hk; simp [h]
    have hk2 : k ∉ rest.map Prod.fst := by
      intro h; apply hk; simp [h]
    show dictGet (merge_profile_dict
      (if truthy kv.2 ∧ isSentinel kv.2 = false then dictSet old kv.1 kv.2 else old) rest) k
      = dictGet old k
    by_cases hc : truthy kv.2 ∧ isSentinel kv.2 = false
    · rw [if_pos hc, ih _ _ hk2, dictGet_dictSet_ne _ _ _ _ hk1]
    · rw [if_neg hc, ih _ _ hk2]

theorem merge_profile_get_mem (pd : List (String × Val)) :
    ∀ (old : List (String × Val)) (k : String) (v : Val),
      (pd.map Prod.fst).Nodup → (k, v) ∈ pd → truthy v = true → isSentinel v = false →
      dictGet (merge_profile_dict old pd) k = some v := by
  induction pd with
  | nil => intro _ _ _ _ hmem _ _; cases hmem
  | cons kv rest ih =>
    intro old k v hnd hmem ht hs
    have hnd2 : (rest.map Prod.fst).Nodup := (List.nodup_cons.mp (by simpa using hnd)).2
    rcases List.mem_cons.mp hmem with heq | hmem'
    · subst heq
      show dictGet (merge_profile_dict
        (if truthy v ∧ isSentinel v = false then dictSet old k v else old) rest) k = some v
      rw [if_pos ⟨ht, hs⟩]
      have hk : k ∉ rest.map Prod.fst := (List.nodup_cons.mp (by simpa using hnd)).1
      rw [merge_profile_get_absent rest _ _ hk, dictGet_dictSet_self]
    · show dictGet (merge_profile_dict
        (if truthy kv.2 ∧ isSentinel kv.2 = false then dictSet old kv.1 kv.2 else old) rest) k
        = some v
      exact ih _ _ _ hnd2 hmem' ht hs

theorem updateFirst_map {α β : Type} (pred : α → Bool) (f : α → α) (g : α → β)
    (h : ∀ x, g (f x) = g x) : ∀ l : List α, (updateFirst pred f l).map g = l.map g := by
  intro l
  induction l with
  | nil => rfl
  | cons x xs ih =>
    by_cases hx : pred x
    · simp [updateFirst, hx, h x]
    · simp [updateFirst, hx, ih]

theorem updateFirst_length {α : Type} (pred : α → Bool) (f : α → α) :
    ∀ l : List α, (updateFirst pred f l).length = l.length := by
  intro l
  induction l with
  | nil => rfl
  | cons x xs ih =>
    by_cases hx : pred x
    · simp [updateFirst, hx]
    · simp [updateFirst, hx, ih]

theorem upsert_person_matched (stor : Store) (profile_data : Val) (source : String)
    (group_id : Option String) (mf : Option (List (String × Val))) (now fid f4 : String)
    (pre post : List Person) (p : Person)
    (hpeople : stor.people = pre ++ p :: post)
    (hpre : ∀ q ∈ pre, q.dedupKey ≠ upsert_key profile_data)
    (hp : p.dedupKey = upsert_key profile_data)
    (hkey : upsert_key profile_data ≠ "") :
    (upsert_person stor profile_data source group_id mf now fid f4).1 = (p.id, false) ∧
    (upsert_person stor profile_data source group_id mf now fid f4).2.groups = stor.groups ∧
    (upsert_person stor profile_data source group_id mf now fid f4).2.people =
      pre ++ merge_into_existing p profile_data source
        (upsert_membership source group_id mf now) mf now :: post := by
  simp only [upsert_person]
  rw [hpeople, if_pos hkey, upsert_match_split _ _ _ _ _ hpre hp]
  exact ⟨rfl, rfl, rfl⟩

theorem upsert_person_new (stor : Store) (profile_data : Val) (source : String)
    (group_id : Option String) (mf : Option (List (String × Val))) (now fid f4 : String)
    (hnone : ∀ q ∈ stor.people, q.dedupKey ≠ upsert_key profile_data) :
    (upsert_person stor profile_data source group_id mf now fid f4).1 = (fid, true) ∧
    (upsert_person stor profile_data source group_id mf now fid f4).2.groups = stor.groups ∧
    (upsert_person stor profile_data source group_id mf now fid f4).2.people =
      stor.people ++ [upsert_new_person profile_data source group_id mf now fid f4] := by
  simp only [upsert_person]
  by_cases hkey : upsert_key profile_data ≠ ""
  · rw [if_pos hkey, upsert_match_eq_none _ _ _ hnone]
    exact ⟨rfl, rfl, rfl⟩
  · rw [if_neg hkey]
    exact ⟨rfl, rfl, rfl⟩

theorem add_person_to_group_people_none (pid gid : String)
    (f : Option (List (String × Val))) (now : String) :
    ∀ l : List Person, (∀ q ∈ l, q.id ≠ pid) →
      add_person_to_group_people pid gid f now l = none := by
  intro l h
  induction l with
  | nil => rfl
  | cons p ps ih =>
    have hp : ¬ (p.id = pid) := h p (by simp)
    have hps : ∀ q ∈ ps, q.id ≠ pid := fun q hq => h q (by simp [hq])
    simp [add_person_to_group_people, hp, ih hps]

theorem remove_person_from_group_people_none (pid gid : String) :
    ∀ l : List Person, (∀ q ∈ l, q.id ≠ pid) →
      remove_person_from_group_people pid gid l = none := by
  intro l h
  induction l with
  | nil => rfl
  | cons p ps ih =>
    have hp : ¬ (p.id = pid) := h p (by simp)
    have hps : ∀ q ∈ ps, q.id ≠ pid := fun q hq => h q (by simp [hq])
    simp [remove_person_from_group_people, hp, ih hps]

theorem update_membership_fields_people_none (pid gid : String)
    (fl : List (String × Val)) (now : String) :
    ∀ l : List Person, (∀ q ∈ l, q.id ≠ pid) →
      update_membership_fields_people pid gid fl now l = none := by
  intro l h
  induction l with
  | nil => rfl
  | cons p ps ih =>
    have hp : ¬ (p.id = pid) := h p (by simp)
    have hps : ∀ q ∈ ps, q.id ≠ pid := fun q hq => h q (by simp [hq])
    simp [update_membership_fields_people, hp, ih hps]

theorem set_person_base_score_people_none (pid : String) (b : ℚ) (now : String) :
    ∀ l : List Person, (∀ q ∈ l, q.id ≠ pid) →
      set_person_base_score_people pid b now l = none := by
  intro l h
  induction l with
  | nil => rfl
  | cons p ps ih =>
    have hp : ¬ (p.id = pid) := h p (by simp)
    have hps : ∀ q ∈ ps, q.id ≠ pid := fun q hq => h q (by simp [hq])
    simp [set_person_base_score_people, hp, ih hps]

theorem add_performance_event_people_none (pid : String) (ev : Event) (now : String) :
    ∀ l : List Person, (∀ q ∈ l, q.id ≠ pid) →
      add_performance_event_people pid ev now l = none := by
  intro l h
  induction l with
  | nil => rfl
  | cons p ps ih =>
    have hp : ¬ (p.id = pid) := h p (by simp)
    have hps : ∀ q ∈ ps, q.id ≠ pid := fun q hq => h q (by simp [hq])
    simp [add_performance_event_people, hp, ih hps]

theorem update_performance_event_people_none (pid eid : String) (patch : Event → Event)
    (now : String) :
    ∀ l : List Person, (∀ q ∈ l, q.id ≠ pid) →
      update_performance_event_people pid eid patch now l = none := by
  intro l h
  induction l with
  | nil => rfl
  | cons p ps ih =>
    have hp : ¬ (p.id = pid) := h p (by simp)
    have hps : ∀ q ∈ ps, q.id ≠ pid := fun q hq => h q (by simp [hq])
    simp [update_performance_event_people, hp, ih hps]

theorem delete_performance_event_people_none (pid eid : String) (now : String) :
    ∀ l : List Person, (∀ q ∈ l, q.id ≠ pid) →
      delete_performance_event_people pid eid now l = none := by
  intro l h
  induction l with
  | nil => rfl
  | cons p ps ih =>
    have hp : ¬ (p.id = pid) := h p (by simp)
    have hps : ∀ q ∈ ps, q.id ≠ pid := fun q hq => h q (by simp [hq])
    simp [delete_performance_event_people, hp, ih hps]

/- ==================== Claim theorems ==================== -/

/-- C5: `compute_current_score` returns `base_score` plus the sum of all
event deltas, and the result is invariant under arbitrary permutation of the
events list. -/
theorem claim_C5_score_fold (b : ℚ) (u u' : String) (l l' : List Event)
    (hperm : l.Perm l') :
    compute_current_score { base_score := b, events := l, updated_at := u } =
      b + (l.map (fun e => e.delta)).sum ∧
    compute_current_score { base_score := b, events := l, updated_at := u } =
      compute_current_score { base_score := b, events := l', updated_at := u' } := by
  constructor
  · rfl
  · unfold compute_current_score
    simp only []
    rw [(hperm.map (fun e => e.delta)).sum_eq]

def wEv1 : Event :=
  { id := "e1", type := "contribution", delta := 5, title := "a", note := "",
    group_id := some "g1", at_ := "d1" }

def wEv2 : Event :=
  { id := "e2", type := "manual_adjust", delta := -2, title := "b", note := "",
    group_id := none, at_ := "d2" }

theorem claim_C5_score_fold_witness :
    compute_current_score { base_score := 3, events := [wEv1, wEv2], updated_at := "t" } =
      3 + ([wEv1, wEv2].map (fun e => e.delta)).sum ∧
    compute_current_score { base_score := 3, events := [wEv1, wEv2], updated_at := "t" } =
      compute_current_score { base_score := 3, events := [wEv2, wEv1], updated_at := "t2" } :=
  claim_C5_score_fold 3 "t" "t2" [wEv1, wEv2] [wEv2, wEv1] (by decide)

def cexEvent : Event :=
  { id := "e1", type := "contribution", delta := 5, title := "", note := "",
    group_id := some "g1", at_ := "d" }

def cexPerf : Performance :=
  { base_score := 0, events := [cexEvent], updated_at := "t" }

/-- C4 counterexample: with the supplied group id `G = ""` (a falsy string),
`get_summary` performs no filtering at all, so an event tagged with the
different group `"g1"` is counted, although the claimed subset
(`group_id ∈ \x7b"", None\x7d`) is empty. -/
theorem claim_C4_counterexample :
    (get_summary cexPerf (some "")).event_count = 1 ∧
    (cexPerf.events.filter (fun e => e.group_id = some "" ∨ e.group_id = none)).length = 0 := by
  constructor <;> rfl

/-- C4 (amended: the supplied group id must be truthy, i.e. non-empty; for
`G = ""` the source skips the filter entirely): for every ledger and every
non-empty supplied group id `G`, the summary aggregates exactly the events
whose `group_id` is `G` or null. -/
theorem claim_C4_scoped_summary (perf : Performance) (G : String) (hG : G ≠ "") :
    (get_summary perf (some G)).event_count =
      (perf.events.filter (fun e => e.group_id = some G ∨ e.group_id = none)).length ∧
    (get_summary perf (some G)).current_score = perf.base_score +
      (((perf.events.filter (fun e => e.group_id = some G ∨ e.group_id = none)).map
        (fun e => e.delta)).sum) ∧
    (get_summary perf (some G)).contribution_total =
      ((((perf.events.filter (fun e => e.group_id = some G ∨ e.group_id = none)).filter
        (fun e => e.type = EVENT_TYPE_CONTRIBUTION)).map (fun e => e.delta)).sum) ∧
    (get_summary perf (some G)).contribution_count =
      ((perf.events.filter (fun e => e.group_id = some G ∨ e.group_id = none)).filter
        (fun e => e.type = EVENT_TYPE_CONTRIBUTION)).length ∧
    (get_summary perf (some G)).base_score = perf.base_score ∧
    ∀ e ∈ perf.events,
      (e ∈ perf.events.filter (fun e => e.group_id = some G ∨ e.group_id = none) ↔
        (e.group_id = some G ∨ e.group_id = none)) := by
  have ht : optStrTruthy (some G) = true := by simp [optStrTruthy, hG]
  have hfun : eventInScope (some G) =
      fun e => decide (e.group_id = some G) || decide (e.group_id = none) := by
    funext e
    simp [eventInScope, Bool.decide_or]
  refine ⟨?_, ?_, ?_, ?_, ?_, ?_⟩
  · simp [get_summary, ht, hfun]
  · simp [get_summary, ht, hfun]
  · simp [get_summary, ht, hfun]
  · simp [get_summary, ht, hfun]
  · simp [get_summary, ht]
  · intro e he
    simp [List.mem_filter, he]

theorem claim_C4_scoped_summary_witness :
    (get_summary cexPerf (some "g1")).event_count =
      (cexPerf.events.filter (fun e => e.group_id = some "g1" ∨ e.group_id = none)).length ∧
    (get_summary cexPerf (some "g1")).current_score = cexPerf.base_score +
      (((cexPerf.events.filter (fun e => e.group_id = some "g1" ∨ e.group_id = none)).map
        (fun e => e.delta)).sum) ∧
    (get_summary cexPerf (some "g1")).contribution_total =
      ((((cexPerf.events.filter (fun e => e.group_id = some "g1" ∨ e.group_id = none)).filter
        (fun e => e.type = EVENT_TYPE_CONTRIBUTION)).map (fun e => e.delta)).sum) ∧
    (get_summary cexPerf (some "g1")).contribution_count =
      ((cexPerf.events.filter (fun e => e.group_id = some "g1" ∨ e.group_id = none)).filter
        (fun e => e.type = EVENT_TYPE_CONTRIBUTION)).length ∧
    (get_summary cexPerf (some "g1")).base_score = cexPerf.base_score ∧
    ∀ e ∈ cexPerf.events,
      (e ∈ cexPerf.events.filter (fun e => e.group_id = some "g1" ∨ e.group_id = none) ↔
        (e.group_id = some "g1" ∨ e.group_id = none)) :=
  claim_C4_scoped_summary cexPerf "g1" (by decide)

/-- C3 counterexample: the placeholder token "n/a" under the phone alias key
is truthy, so the extraction loop takes it verbatim — it is not skipped and
becomes the extracted phone, contradicting the claimed placeholder
filtering. -/
theorem claim_C3_counterexample :
    (extract_contact_from_profile (Val.vDict [("电话", Val.vStr "n/a")])).1 =
      Val.vStr "n/a" := by
  rfl

/-- C3 (amended: the source skips a probed value only when it is falsy —
null, empty string, zero, empty list/dict; truthy placeholder tokens such as
"n/a", "unknown" or "none" are returned as the extracted value, not treated
as missing): on a single-alias profile the extraction returns `str(v)` for a
truthy value `v` and `""` for a falsy one, and alias keys are probed in their
fixed order (`电话` before `手机`) regardless of dict order. -/
theorem claim_C3_missing_is_falsy (k : String) (v : Val) (hk : k ∈ phone_keys) :
    ((truthy v = true →
        (extract_contact_from_profile (Val.vDict [(k, v)])).1 = Val.vStr (pyStr v)) ∧
     (truthy v = false →
        extract_contact_from_profile (Val.vDict [(k, v)]) = (Val.vStr "", Val.vStr ""))) ∧
    (extract_contact_from_profile
        (Val.vDict [("手机", Val.vStr "A"), ("电话", Val.vStr "B")])).1 = Val.vStr "B" := by
  constructor
  · fin_cases hk <;>
      refine ⟨fun hv => ?_, fun hv => ?_⟩ <;>
        simp [extract_contact_from_profile, probeKeys, dictGet, phone_keys, email_keys,
          List.find?, hv]
  · rfl

theorem claim_C3_missing_is_falsy_witness :
    ((truthy (Val.vStr "n/a") = true →
        (extract_contact_from_profile (Val.vDict [("phone", Val.vStr "n/a")])).1 =
          Val.vStr (pyStr (Val.vStr "n/a"))) ∧
     (truthy (Val.vStr "n/a") = false →
        extract_contact_from_profile (Val.vDict [("phone", Val.vStr "n/a")]) =
          (Val.vStr "", Val.vStr ""))) ∧
    (extract_contact_from_profile
        (Val.vDict [("手机", Val.vStr "A"), ("电话", Val.vStr "B")])).1 = Val.vStr "B" :=
  claim_C3_missing_is_falsy "phone" (Val.vStr "n/a") (by simp [phone_keys])

/-- C7: `delete_group` reports success, removes exactly the group with the
given id, keeps every person (same length, pointwise same identity and data),
and removes from each person exactly the memberships pointing at the deleted
group, leaving id, name, phone, email, dedup key, profile, sources and the
whole performance ledger untouched. -/
theorem claim_C7_delete_group_cascade (stor : Store) (gid : String) :
    (delete_group stor gid).1 = true ∧
    (∀ g : GroupRec, g ∈ (delete_group stor gid).2.groups ↔
      (g ∈ stor.groups ∧ g.id ≠ gid)) ∧
    (delete_group stor gid).2.people.length = stor.people.length ∧
    List.Forall₂ (fun p q =>
        q.id = p.id ∧ q.name = p.name ∧ q.phone = p.phone ∧ q.email = p.email ∧
        q.dedupKey = p.dedupKey ∧ q.created_at = p.created_at ∧
        q.profile = p.profile ∧ q.sources = p.sources ∧
        q.performance = p.performance ∧
        ∀ m : MembershipRec, m ∈ q.memberships ↔
          (m ∈ p.memberships ∧ m.group_id ≠ gid))
      stor.people (delete_group stor gid).2.people := by
  refine ⟨rfl, ?_, ?_, ?_⟩
  · intro g
    simp [delete_group, List.mem_filter]
  · simp [delete_group]
  · simp only [delete_group]
    rw [List.forall₂_map_right_iff]
    apply List.forall₂_same.mpr
    intro p _
    refine ⟨rfl, rfl, rfl, rfl, rfl, rfl, rfl, rfl, rfl, ?_⟩
    intro m
    simp [List.mem_filter]

/-- C8 counterexample: `delete_person` on a store that contains no person at
all still returns True (it returns the result of saving the unchanged store),
contradicting the claim that a missing id yields a false result. -/
theorem claim_C8_counterexample :
    (delete_person empty_org_store "p1").1 = true ∧
    empty_org_store.people.any (fun p => p.id = "p1") = false := by
  constructor <;> rfl

/-- C8 (amended: the probing operations — `rename_group` on a missing group,
and the person-addressed membership/performance operations on a missing
person — return False; but `delete_group` and `delete_person` are blind
filters that return the save result, True, even when no entity with the id
exists; none of them raises). -/
theorem claim_C8_not_found_results (stor : Store) (pid gid nn : String)
    (f : Option (List (String × Val))) (fl : List (String × Val)) (b : ℚ)
    (ev : Event) (eid : String) (patch : Event → Event) (now : String)
    (hp : ∀ q ∈ stor.people, q.id ≠ pid)
    (hg : ∀ g ∈ stor.groups, g.id ≠ gid) :
    (rename_group stor gid nn now).1 = false ∧
    (add_person_to_group stor pid gid f now).1 = false ∧
    (remove_person_from_group stor pid gid).1 = false ∧
    (update_membership_fields stor pid gid fl now).1 = false ∧
    (set_person_base_score stor pid b now).1 = false ∧
    (add_performance_event stor pid ev now).1 = false ∧
    (update_performance_event stor pid eid patch now).1 = false ∧
    (delete_performance_event stor pid eid now).1 = false ∧
    (delete_group stor gid).1 = true ∧
    (delete_person stor pid).1 = true := by
  have hany : stor.groups.any (fun g => g.id = gid) = false := by
    simp only [List.any_eq_false, decide_eq_true_eq]
    exact hg
  refine ⟨?_, ?_, ?_, ?_, ?_, ?_, ?_, ?_, rfl, rfl⟩
  · simp [rename_group, hany]
  · simp [add_person_to_group, add_person_to_group_people_none pid gid f now _ hp]
  · simp [remove_person_from_group, remove_person_from_group_people_none pid gid _ hp]
  · simp [update_membership_fields, update_membership_fields_people_none pid gid fl now _ hp]
  · simp [set_person_base_score, set_person_base_score_people_none pid b now _ hp]
  · simp [add_performance_event, add_performance_event_people_none pid ev now _ hp]
  · simp [update_performance_event, update_performance_event_people_none pid eid patch now _ hp]
  · simp [delete_performance_event, delete_performance_event_people_none pid eid now _ hp]

theorem claim_C8_not_found_results_witness :
    (rename_group empty_org_store "g" "n" "t").1 = false ∧
    (add_person_to_group empty_org_store "p" "g" none "t").1 = false ∧
    (remove_person_from_group empty_org_store "p" "g").1 = false ∧
    (update_membership_fields empty_org_store "p" "g" [] "t").1 = false ∧
    (set_person_base_score empty_org_store "p" 0 "t").1 = false ∧
    (add_performance_event empty_org_store "p" wEv1 "t").1 = false ∧
    (update_performance_event empty_org_store "p" "e1" id "t").1 = false ∧
    (delete_performance_event empty_org_store "p" "e1" "t").1 = false ∧
    (delete_group empty_org_store "g").1 = true ∧
    (delete_person empty_org_store "p").1 = true :=
  claim_C8_not_found_results empty_org_store "p" "g" "n" none [] 0 wEv1 "e1" id "t"
    (by simp [empty_org_store]) (by simp [empty_org_store])

theorem phone_prefix_ne_empty (s : String) : "phone:" ++ s ≠ "" := by
  intro h
  have h2 := congrArg String.length h
  rw [String.length_append] at h2
  have h6 : ("phone:" : String).length = 6 := rfl
  have h0 : ("" : String).length = 0 := rfl
  rw [h6, h0] at h2
  omega

theorem upsert_key_of_phone (prof : Val) (s : String) (hs : s ≠ "")
    (h : normalize_phone (extract_contact_from_profile prof).1 = s) :
    upsert_key prof = "phone:" ++ s := by
  simp only [upsert_key, compute_dedup_key]
  rw [h, if_pos hs]

/-- C1: two profiles whose extracted phones normalize to the same non-empty
string, upserted in sequence into a store containing no person with that
phone dedup key, converge on one person: the first call creates it
(`isNew = True`), the second returns the same id with `isNew = False`, and
afterwards exactly one person in the store carries that dedup key. -/
theorem claim_C1_dedup_convergence
    (stor : Store) (prof1 prof2 : Val) (src1 src2 : String)
    (g1 g2 : Option String) (mf1 mf2 : Option (List (String × Val)))
    (now1 now2 fid1 fid2 f41 f42 : String) (s : String) (hs : s ≠ "")
    (h1 : normalize_phone (extract_contact_from_profile prof1).1 = s)
    (h2 : normalize_phone (extract_contact_from_profile prof2).1 = s)
    (hfresh : ∀ q ∈ stor.people, q.dedupKey ≠ "phone:" ++ s) :
    (upsert_person stor prof1 src1 g1 mf1 now1 fid1 f41).1 = (fid1, true) ∧
    (upsert_person (upsert_person stor prof1 src1 g1 mf1 now1 fid1 f41).2
        prof2 src2 g2 mf2 now2 fid2 f42).1 = (fid1, false) ∧
    ((upsert_person (upsert_person stor prof1 src1 g1 mf1 now1 fid1 f41).2
        prof2 src2 g2 mf2 now2 fid2 f42).2.people.filter
      (fun p => p.dedupKey = "phone:" ++ s)).length = 1 := by
  have hk1 : upsert_key prof1 = "phone:" ++ s := upsert_key_of_phone prof1 s hs h1
  have hk2 : upsert_key prof2 = "phone:" ++ s := upsert_key_of_phone prof2 s hs h2
  have hne1 : ∀ q ∈ stor.people, q.dedupKey ≠ upsert_key prof1 := by
    rw [hk1]; exact hfresh
  obtain ⟨e1a, _, e1p⟩ := upsert_person_new stor prof1 src1 g1 mf1 now1 fid1 f41 hne1
  have hnewKey : (upsert_new_person prof1 src1 g1 mf1 now1 fid1 f41).dedupKey =
      "phone:" ++ s := by
    simp [upsert_new_person, hk1]
  have hsplit : (upsert_person stor prof1 src1 g1 mf1 now1 fid1 f41).2.people =
      stor.people ++ upsert_new_person prof1 src1 g1 mf1 now1 fid1 f41 :: [] := by
    rw [e1p]
  have hpre2 : ∀ q ∈ stor.people, q.dedupKey ≠ upsert_key prof2 := by
    rw [hk2]; exact hfresh
  obtain ⟨e2a, _, e2p⟩ := upsert_person_matched
    (upsert_person stor prof1 src1 g1 mf1 now1 fid1 f41).2 prof2 src2 g2 mf2 now2 fid2 f42
    stor.people [] (upsert_new_person prof1 src1 g1 mf1 now1 fid1 f41)
    hsplit hpre2 (by rw [hnewKey, hk2]) (by rw [hk2]; exact phone_prefix_ne_empty s)
  refine ⟨e1a, ?_, ?_⟩
  · rw [e2a]
    rfl
  · rw [e2p, List.filter_append]
    have hfnone : stor.people.filter (fun p => p.dedupKey = "phone:" ++ s) = [] := by
      apply List.filter_eq_nil_iff.mpr
      intro q hq
      simpa using hfresh q hq
    have hm : (merge_into_existing (upsert_new_person prof1 src1 g1 mf1 now1 fid1 f41)
        prof2 src2 (upsert_membership src2 g2 mf2 now2) mf2 now2).dedupKey =
        "phone:" ++ s := by
      simp [merge_into_existing, hnewKey]
    simp [hfnone, hm]

def wProf1 : Val := Val.vDict [("姓名", Val.vStr "张三"), ("电话", Val.vStr "138-1234-5678")]

def wProf2 : Val := Val.vDict [("电话", Val.vStr "13812345678"), ("教育背景", Val.vStr "硕士")]

theorem claim_C1_dedup_convergence_witness :
    (upsert_person empty_org_store wProf1 "file_upload" none none "t1" "id01" "aaaa").1 =
      ("id01", true) ∧
    (upsert_person (upsert_person empty_org_store wProf1 "file_upload" none none "t1" "id01" "aaaa").2
        wProf2 "text_analysis" none none "t2" "id02" "bbbb").1 = ("id01", false) ∧
    ((upsert_person (upsert_person empty_org_store wProf1 "file_upload" none none "t1" "id01" "aaaa").2
        wProf2 "text_analysis" none none "t2" "id02" "bbbb").2.people.filter
      (fun p => p.dedupKey = "phone:" ++ "13812345678")).length = 1 :=
  claim_C1_dedup_convergence empty_org_store wProf1 wProf2 "file_upload" "text_analysis"
    none none none none "t1" "t2" "id01" "id02" "aaaa" "bbbb" "13812345678"
    (by decide) (by rfl) (by rfl) (by simp [empty_org_store])

/-- C2: when `upsert_person` matches an existing person by dedup key, every
incoming profile key with a truthy, non-sentinel value overwrites the stored
profile value at that key; keys absent from the incoming payload keep their
previous value; and one sources entry is appended with all previous entries
intact. -/
theorem claim_C2_merge_rule
    (stor : Store) (pre post : List Person) (p : Person)
    (pd old : List (String × Val)) (source : String)
    (group_id : Option String) (mf : Option (List (String × Val))) (now fid f4 : String)
    (hpeople : stor.people = pre ++ p :: post)
    (hpre : ∀ q ∈ pre, q.dedupKey ≠ upsert_key (Val.vDict pd))
    (hp : p.dedupKey = upsert_key (Val.vDict pd))
    (hkey : upsert_key (Val.vDict pd) ≠ "")
    (hprof : p.profile = Val.vDict old)
    (hnodup : (pd.map Prod.fst).Nodup) :
    ∃ p', (upsert_person stor (Val.vDict pd) source group_id mf now fid f4).2.people
            = pre ++ p' :: post ∧
      (∀ k v, (k, v) ∈ pd → truthy v = true → isSentinel v = false →
        profileGet p'.profile k = some v) ∧
      (∀ k, k ∉ pd.map Prod.fst → profileGet p'.profile k = profileGet p.profile k) ∧
      p'.sources = p.sources ++ [{ type := source, imported_at := now }] := by
  obtain ⟨_, _, e2p⟩ := upsert_person_matched stor (Val.vDict pd) source group_id mf
    now fid f4 pre post p hpeople hpre hp hkey
  have hpf : (merge_into_existing p (Val.vDict pd) source
      (upsert_membership source group_id mf now) mf now).profile =
      Val.vDict (merge_profile_dict old pd) := by
    simp [merge_into_existing, hprof]
  refine ⟨merge_into_existing p (Val.vDict pd) source
    (upsert_membership source group_id mf now) mf now, e2p, ?_, ?_, ?_⟩
  · intro k v hm ht hsent
    rw [hpf]
    exact merge_profile_get_mem pd old k v hnodup hm ht hsent
  · intro k hk
    rw [hpf, hprof]
    exact merge_profile_get_absent pd old k hk
  · simp [merge_into_existing]

def wPerson0 : Person :=
  { id := "p0", name := Val.vStr "张三", phone := "1", email := "",
    dedupKey := "phone:1", created_at := "t0", updated_at := "t0",
    profile := Val.vDict [("a", Val.vStr "x"), ("电话", Val.vStr "1")],
    sources := [{ type := "file_upload", imported_at := "t0" }],
    memberships := [{ group_id := "g", joined_at := "t0", updated_at := "t0",
                      fields := [] }],
    performance := some { base_score := 0, events := [], updated_at := "t0" } }

def wStore0 : Store := { groups := [], people := [wPerson0] }

theorem claim_C2_merge_rule_witness :
    ∃ p', (upsert_person wStore0
        (Val.vDict [("电话", Val.vStr "1"), ("b", Val.vStr "y")])
        "text_analysis" none none "t1" "id9" "cccc").2.people = [] ++ p' :: [] ∧
      (∀ k v, (k, v) ∈ [("电话", Val.vStr "1"), ("b", Val.vStr "y")] →
        truthy v = true → isSentinel v = false → profileGet p'.profile k = some v) ∧
      (∀ k, k ∉ [("电话", Val.vStr "1"), ("b", Val.vStr "y")].map Prod.fst →
        profileGet p'.profile k = profileGet wPerson0.profile k) ∧
      p'.sources = wPerson0.sources ++ [{ type := "text_analysis", imported_at := "t1" }] :=
  claim_C2_merge_rule wStore0 [] [] wPerson0
    [("电话", Val.vStr "1"), ("b", Val.vStr "y")]
    [("a", Val.vStr "x"), ("电话", Val.vStr "1")]
    "text_analysis" none none "t1" "id9" "cccc"
    (by rfl) (by simp) (by rfl) (by decide) (by rfl) (by simp)

/-- C10: when `upsert_person` matches an existing person by dedup key, the
matched record's top-level `id`, `name`, `phone`, `email`, `dedup` key,
`created_at` and performance ledger are unchanged, whatever the incoming
profile contains — only `profile`, `sources`, `memberships` and `updated_at`
can differ on the updated record. -/
theorem claim_C10_merge_frame
    (stor : Store) (pre post : List Person) (p : Person) (profile_data : Val)
    (source : String) (group_id : Option String) (mf : Option (List (String × Val)))
    (now fid f4 : String)
    (hpeople : stor.people = pre ++ p :: post)
    (hpre : ∀ q ∈ pre, q.dedupKey ≠ upsert_key profile_data)
    (hp : p.dedupKey = upsert_key profile_data)
    (hkey : upsert_key profile_data ≠ "") :
    ∃ p', (upsert_person stor profile_data source group_id mf now fid f4).2.people
            = pre ++ p' :: post ∧
      p'.id = p.id ∧ p'.name = p.name ∧ p'.phone = p.phone ∧ p'.email = p.email ∧
      p'.dedupKey = p.dedupKey ∧ p'.created_at = p.created_at ∧
      p'.performance = p.performance := by
  obtain ⟨_, _, e2p⟩ := upsert_person_matched stor profile_data source group_id mf
    now fid f4 pre post p hpeople hpre hp hkey
  exact ⟨_, e2p, rfl, rfl, rfl, rfl, rfl, rfl, rfl⟩

theorem claim_C10_merge_frame_witness :
    ∃ p', (upsert_person wStore0 (Val.vDict [("电话", Val.vStr "1"), ("姓名", Val.vStr "李四")])
        "pdf" none none "t1" "id9" "cccc").2.people = [] ++ p' :: [] ∧
      p'.id = wPerson0.id ∧ p'.name = wPerson0.name ∧ p'.phone = wPerson0.phone ∧
      p'.email = wPerson0.email ∧ p'.dedupKey = wPerson0.dedupKey ∧
      p'.created_at = wPerson0.created_at ∧ p'.performance = wPerson0.performance :=
  claim_C10_merge_frame wStore0 [] [] wPerson0
    (Val.vDict [("电话", Val.vStr "1"), ("姓名", Val.vStr "李四")])
    "pdf" none none "t1" "id9" "cccc" (by rfl) (by simp) (by rfl) (by decide)

theorem any_group_iff (gid : String) (l : List MembershipRec) :
    l.any (fun m => m.group_id = gid) = true ↔ gid ∈ l.map (fun m => m.group_id) := by
  simp [List.any_eq_true, List.mem_map]

theorem filter_group_length_count (gid : String) (l : List MembershipRec) :
    (l.filter (fun m => m.group_id = gid)).length =
      (l.map (fun m => m.group_id)).count gid := by
  induction l with
  | nil => rfl
  | cons m rest ih =>
    by_cases hm : m.group_id = gid
    · simp [List.filter_cons, hm, List.count_cons, ih]
    · simp [List.filter_cons, hm, List.count_cons, ih, Ne.symm hm]

theorem filter_group_length_one (gid : String) (l : List MembershipRec)
    (hnd : (l.map (fun m => m.group_id)).Nodup)
    (hmem : gid ∈ l.map (fun m => m.group_id)) :
    (l.filter (fun m => m.group_id = gid)).length = 1 := by
  rw [filter_group_length_count]
  exact List.count_eq_one_of_mem hnd hmem

theorem add_to_group_update_id (p : Person) (gid : String)
    (f : Option (List (String × Val))) (now : String) :
    (add_to_group_update p gid f now).id = p.id := by
  unfold add_to_group_update
  by_cases h : p.memberships.any (fun ms => ms.group_id = gid)
  · simp only [if_pos h]
  · simp only [if_neg h]

theorem add_to_group_update_keys (p : Person) (gid : String)
    (f : Option (List (String × Val))) (now : String) :
    (add_to_group_update p gid f now).memberships.map (fun m => m.group_id) =
      if p.memberships.any (fun ms => ms.group_id = gid) then
        p.memberships.map (fun m => m.group_id)
      else p.memberships.map (fun m => m.group_id) ++ [gid] := by
  unfold add_to_group_update
  by_cases h : p.memberships.any (fun ms => ms.group_id = gid)
  · simp only [if_pos h]
    apply updateFirst_map
    intro x
    rfl
  · simp only [if_neg h, List.map_append]
    rfl

theorem add_to_group_update_any (p : Person) (gid : String)
    (f : Option (List (String × Val))) (now : String) :
    (add_to_group_update p gid f now).memberships.any
      (fun m => m.group_id = gid) = true := by
  rw [any_group_iff, add_to_group_update_keys]
  by_cases h : p.memberships.any (fun ms => ms.group_id = gid)
  · rw [if_pos h]
    exact (any_group_iff gid p.memberships).mp h
  · rw [if_neg h]
    simp

theorem add_to_group_update_nodup (p : Person) (gid : String)
    (f : Option (List (String × Val))) (now : String)
    (hnd : (p.memberships.map (fun m => m.group_id)).Nodup) :
    ((add_to_group_update p gid f now).memberships.map (fun m => m.group_id)).Nodup := by
  rw [add_to_group_update_keys]
  by_cases h : p.memberships.any (fun ms => ms.group_id = gid)
  · rw [if_pos h]; exact hnd
  · rw [if_neg h]
    have hnot : gid ∉ p.memberships.map (fun m => m.group_id) := by
      intro hc
      rw [← any_group_iff] at hc
      simp [h] at hc
    simp [List.nodup_append, hnd, hnot]

theorem add_to_group_update_len_of_any (p : Person) (gid : String)
    (f : Option (List (String × Val))) (now : String)
    (h : p.memberships.any (fun ms => ms.group_id = gid) = true) :
    (add_to_group_update p gid f now).memberships.length = p.memberships.length := by
  unfold add_to_group_update
  simp only [if_pos h]
  exact updateFirst_length _ _ _

theorem add_person_to_group_people_split (pid gid : String)
    (f : Option (List (String × Val))) (now : String) (pre post : List Person) (p : Person)
    (hpre : ∀ q ∈ pre, q.id ≠ pid) (hp : p.id = pid) :
    add_person_to_group_people pid gid f now (pre ++ p :: post) =
      some (pre ++ add_to_group_update p gid f now :: post) := by
  induction pre with
  | nil => simp [add_person_to_group_people, hp]
  | cons q qs ih =>
    have hq : ¬ (q.id = pid) := hpre q (by simp)
    have hqs : ∀ r ∈ qs, r.id ≠ pid := fun r hr => hpre r (by simp [hr])
    simp [add_person_to_group_people, hq, ih hqs]

theorem add_person_to_group_split (stor : Store) (pid gid : String)
    (f : Option (List (String × Val))) (now : String) (pre post : List Person) (p : Person)
    (hpeople : stor.people = pre ++ p :: post)
    (hpre : ∀ q ∈ pre, q.id ≠ pid) (hp : p.id = pid) :
    (add_person_to_group stor pid gid f now).1 = true ∧
    (add_person_to_group stor pid gid f now).2.groups = stor.groups ∧
    (add_person_to_group stor pid gid f now).2.people =
      pre ++ add_to_group_update p gid f now :: post := by
  unfold add_person_to_group
  rw [hpeople, add_person_to_group_people_split pid gid f now pre post p hpre hp]
  exact ⟨rfl, rfl, rfl⟩

theorem upsert_membership_group (source g : String) (mf : Option (List (String × Val)))
    (now : String) (hg : g ≠ "") :
    (upsert_membership source (some g) mf now).map (fun m => m.group_id) = some g := by
  simp [upsert_membership, optStrTruthy, hg]

theorem merge_memberships_of_existing (p : Person) (profile_data : Val) (source g : String)
    (mf : Option (List (String × Val))) (now : String) (hg : g ≠ "")
    (hmem : p.memberships.any (fun m => m.group_id = g) = true) :
    (merge_into_existing p profile_data source
        (upsert_membership source (some g) mf now) mf now).memberships.map
      (fun m => m.group_id) = p.memberships.map (fun m => m.group_id) ∧
    (merge_into_existing p profile_data source
        (upsert_membership source (some g) mf now) mf now).memberships.length =
      p.memberships.length := by
  have hms := upsert_membership_group source g mf now hg
  cases hmm : upsert_membership source (some g) mf now with
  | none => rw [hmm] at hms; simp at hms
  | some mrec =>
    rw [hmm] at hms
    have hgid : mrec.group_id = g := by simpa using hms
    unfold merge_into_existing
    simp only [hmm, hgid, hmem, if_pos]
    constructor
    · apply updateFirst_map
      intro x
      rfl
    · exact updateFirst_length _ _ _

/-- C6: membership uniqueness. Starting from a person whose memberships have
pairwise-distinct group ids, (a) `add_person_to_group` called twice with the
same `(person, group)` returns True both times and leaves exactly one
membership for the group — the second call updates in place (the list length
does not change) — and uniqueness of group ids is preserved; and (b)
`upsert_person` matching that person with a `group_id` the person already
belongs to updates the existing membership instead of appending (membership
count unchanged, still exactly one membership for that group). -/
theorem claim_C6_membership_uniqueness
    (stor : Store) (pre post : List Person) (p : Person) (pid gid : String)
    (f1 f2 : Option (List (String × Val))) (now1 now2 : String)
    (profile_data : Val) (source g : String)
    (mf : Option (List (String × Val))) (now fid f4 : String)
    (hpeople : stor.people = pre ++ p :: post)
    (hpreid : ∀ q ∈ pre, q.id ≠ pid) (hpid : p.id = pid)
    (hnd : (p.memberships.map (fun m => m.group_id)).Nodup)
    (hprekey : ∀ q ∈ pre, q.dedupKey ≠ upsert_key profile_data)
    (hpkey : p.dedupKey = upsert_key profile_data)
    (hkey : upsert_key profile_data ≠ "")
    (hg : g ≠ "")
    (hmem : p.memberships.any (fun m => m.group_id = g) = true) :
    ∃ p1' p2',
      (add_person_to_group stor pid gid f1 now1).1 = true ∧
      (add_person_to_group stor pid gid f1 now1).2.people = pre ++ p1' :: post ∧
      (p1'.memberships.map (fun m => m.group_id)).Nodup ∧
      (p1'.memberships.filter (fun m => m.group_id = gid)).length = 1 ∧
      (add_person_to_group (add_person_to_group stor pid gid f1 now1).2
        pid gid f2 now2).1 = true ∧
      (add_person_to_group (add_person_to_group stor pid gid f1 now1).2
        pid gid f2 now2).2.people = pre ++ p2' :: post ∧
      p2'.memberships.length = p1'.memberships.length ∧
      (p2'.memberships.filter (fun m => m.group_id = gid)).length = 1 ∧
      (p2'.memberships.map (fun m => m.group_id)).Nodup ∧
      ∃ pu, (upsert_person stor profile_data source (some g) mf now fid f4).2.people =
          pre ++ pu :: post ∧
        pu.memberships.length = p.memberships.length ∧
        (pu.memberships.map (fun m => m.group_id)).Nodup ∧
        (pu.memberships.filter (fun m => m.group_id = g)).length = 1 := by
  obtain ⟨a1, _, ap1⟩ :=
    add_person_to_group_split stor pid gid f1 now1 pre post p hpeople hpreid hpid
  have hid1 : (add_to_group_update p gid f1 now1).id = pid := by
    rw [add_to_group_update_id]; exact hpid
  obtain ⟨a2, _, ap2⟩ :=
    add_person_to_group_split (add_person_to_group stor pid gid f1 now1).2
      pid gid f2 now2 pre post (add_to_group_update p gid f1 now1) ap1 hpreid hid1
  have hnd1 := add_to_group_update_nodup p gid f1 now1 hnd
  have hany1 := add_to_group_update_any p gid f1 now1
  have hcnt1 := filter_group_length_one gid _ hnd1 ((any_group_iff gid _).mp hany1)
  have hlen2 := add_to_group_update_len_of_any (add_to_group_update p gid f1 now1)
    gid f2 now2 hany1
  have hnd2 := add_to_group_update_nodup (add_to_group_update p gid f1 now1)
    gid f2 now2 hnd1
  have hany2 := add_to_group_update_any (add_to_group_update p gid f1 now1) gid f2 now2
  have hcnt2 := filter_group_length_one gid _ hnd2 ((any_group_iff gid _).mp hany2)
  obtain ⟨_, _, up⟩ := upsert_person_matched stor profile_data source (some g) mf
    now fid f4 pre post p hpeople hprekey hpkey hkey
  obtain ⟨hmap, hlen⟩ := merge_memberships_of_existing p profile_data source g mf now hg hmem
  have hndu : ((merge_into_existing p profile_data source
      (upsert_membership source (some g) mf now) mf now).memberships.map
        (fun m => m.group_id)).Nodup := by
    rw [hmap]; exact hnd
  have hcntu := filter_group_length_one g _ hndu
    (by rw [hmap]; exact (any_group_iff g _).mp hmem)
  exact ⟨add_to_group_update p gid f1 now1,
    add_to_group_update (add_to_group_update p gid f1 now1) gid f2 now2,
    a1, ap1, hnd1, hcnt1, a2, ap2, hlen2, hcnt2, hnd2,
    merge_into_existing p profile_data source
      (upsert_membership source (some g) mf now) mf now,
    up, hlen, hndu, hcntu⟩

theorem claim_C6_membership_uniqueness_witness :
    ∃ p1' p2',
      (add_person_to_group wStore0 "p0" "g2" none "t1").1 = true ∧
      (add_person_to_group wStore0 "p0" "g2" none "t1").2.people = [] ++ p1' :: [] ∧
      (p1'.memberships.map (fun m => m.group_id)).Nodup ∧
      (p1'.memberships.filter (fun m => m.group_id = "g2")).length = 1 ∧
      (add_person_to_group (add_person_to_group wStore0 "p0" "g2" none "t1").2
        "p0" "g2" none "t2").1 = true ∧
      (add_person_to_group (add_person_to_group wStore0 "p0" "g2" none "t1").2
        "p0" "g2" none "t2").2.people = [] ++ p2' :: [] ∧
      p2'.memberships.length = p1'.memberships.length ∧
      (p2'.memberships.filter (fun m => m.group_id = "g2")).length = 1 ∧
      (p2'.memberships.map (fun m => m.group_id)).Nodup ∧
      ∃ pu, (upsert_person wStore0 (Val.vDict [("电话", Val.vStr "1")])
          "pdf" (some "g") none "t3" "id9" "dddd").2.people = [] ++ pu :: [] ∧
        pu.memberships.length = wPerson0.memberships.length ∧
        (pu.memberships.map (fun m => m.group_id)).Nodup ∧
        (pu.memberships.filter (fun m => m.group_id = "g")).length = 1 :=
  claim_C6_membership_uniqueness wStore0 [] [] wPerson0 "p0" "g2" none none "t1" "t2"
    (Val.vDict [("电话", Val.vStr "1")]) "pdf" "g" none "t3" "id9" "dddd"
    (by rfl) (by simp) (by rfl) (by decide) (by simp) (by rfl) (by decide)
    (by decide) (by rfl)

/- ==================== C9: v1 migration lemmas ==================== -/

/-- Store invariant: at most one person per non-empty dedup key. -/
def uniqueDedup (stor : Store) : Prop :=
  ∀ key : String, key ≠ "" → (stor.people.filter (fun p => p.dedupKey = key)).length ≤ 1

/-- Store invariant: every person's memberships have distinct group ids. -/
def membershipsNodup (stor : Store) : Prop :=
  ∀ p ∈ stor.people, (p.memberships.map (fun m => m.group_id)).Nodup

/-- Some person with the given dedup key carries a membership for the given
group. -/
def hasKeyMembership (stor : Store) (key gid : String) : Prop :=
  ∃ p ∈ stor.people, p.dedupKey = key ∧
    p.memberships.any (fun m => m.group_id = gid) = true

theorem upsert_match_none_forall (key : String) (f : Person → Person) :
    ∀ l : List Person, upsert_match key f l = none → ∀ q ∈ l, q.dedupKey ≠ key := by
  intro l
  induction l with
  | nil => intro _ q hq; cases hq
  | cons p ps ih =>
    intro h q hq
    by_cases hp : p.dedupKey = key
    · simp [upsert_match, hp] at h
    · unfold upsert_match at h
      rw [if_neg hp] at h
      cases hm : upsert_match key f ps with
      | none =>
        rcases List.mem_cons.mp hq with hq1 | hq2
        · rw [hq1]; exact hp
        · exact ih hm q hq2
      | some r => rw [hm] at h; simp at h

theorem upsert_match_some_decomp (key : String) (f : Person → Person) :
    ∀ (l : List Person) (r : String × List Person), upsert_match key f l = some r →
      ∃ pre p post, l = pre ++ p :: post ∧ (∀ q ∈ pre, q.dedupKey ≠ key) ∧
        p.dedupKey = key ∧ r = (p.id, pre ++ f p :: post) := by
  intro l
  induction l with
  | nil => intro r h; simp [upsert_match] at h
  | cons p ps ih =>
    intro r h
    by_cases hp : p.dedupKey = key
    · unfold upsert_match at h
      rw [if_pos hp] at h
      refine ⟨[], p, ps, rfl, by simp, hp, ?_⟩
      simpa using h.symm
    · unfold upsert_match at h
      rw [if_neg hp] at h
      cases hm : upsert_match key f ps with
      | none => rw [hm] at h; simp at h
      | some r' =>
        rw [hm] at h
        simp only [Option.map_some'] at h
        obtain ⟨pre, q, post, hl, hpre, hq, hr⟩ := ih r' hm
        refine ⟨p :: pre, q, post, by simp [hl], ?_, hq, ?_⟩
        · intro x hx
          rcases List.mem_cons.mp hx with hx1 | hx2
          · rw [hx1]; exact hp
          · exact hpre x hx2
        · have hr2 : r = (r'.1, p :: r'.2) := (Option.some.inj h).symm
          simp [hr2, hr]

theorem migrate_update_dedupKey (mb : MembershipRec) (gid now : String) (p : Person) :
    (migrate_update mb gid now p).dedupKey = p.dedupKey := by
  unfold migrate_update
  by_cases h : p.memberships.any (fun m => m.group_id = gid) <;> simp [h]

theorem migrate_update_any_self (mb : MembershipRec) (gid now : String) (p : Person)
    (hmb : mb.group_id = gid) :
    (migrate_update mb gid now p).memberships.any (fun m => m.group_id = gid) = true := by
  unfold migrate_update
  by_cases h : p.memberships.any (fun m => m.group_id = gid)
  · simp only [if_pos h]
    exact h
  · simp only [if_neg h]
    simp [List.any_append, hmb]

theorem migrate_update_any_mono (mb : MembershipRec) (gid now : String) (p : Person)
    (pr : MembershipRec → Bool) (h : p.memberships.any pr = true) :
    (migrate_update mb gid now p).memberships.any pr = true := by
  unfold migrate_update
  by_cases hc : p.memberships.any (fun m => m.group_id = gid)
  · simp only [if_pos hc]
    exact h
  · simp only [if_neg hc]
    simp [List.any_append, h]

theorem migrate_update_nodup (mb : MembershipRec) (gid now : String) (p : Person)
    (hmb : mb.group_id = gid)
    (hnd : (p.memberships.map (fun m => m.group_id)).Nodup) :
    ((migrate_update mb gid now p).memberships.map (fun m => m.group_id)).Nodup := by
  unfold migrate_update
  by_cases hc : p.memberships.any (fun m => m.group_id = gid)
  · simp only [if_pos hc]
    exact hnd
  · simp only [if_neg hc]
    have hnot : gid ∉ p.memberships.map (fun m => m.group_id) := by
      intro hx
      rw [← any_group_iff] at hx
      exact hc hx
    simp [List.nodup_append, hnd, hnot, hmb]

theorem filter_length_congr_mid (pre post : List Person) (p q : Person)
    (pred : Person → Bool) (hpq : pred q = pred p) :
    ((pre ++ q :: post).filter pred).length = ((pre ++ p :: post).filter pred).length := by
  rw [List.filter_append, List.filter_append, List.filter_cons, List.filter_cons, hpq]
  by_cases h : pred p = true
  · simp [h]
  · simp [h]

theorem migrate_member_people_matched (st : Store) (m : OldMember)
    (gid now fresh : String) (r : String × List Person)
    (hk : migrate_member_key m ≠ "")
    (hm : upsert_match (migrate_member_key m)
      (migrate_update (migrate_membership m gid now) gid now) st.people = some r) :
    (migrate_member_to_store st m gid now fresh).people = r.2 := by
  simp only [migrate_member_to_store]
  rw [if_pos hk, hm]

theorem migrate_member_people_new (st : Store) (m : OldMember) (gid now fresh : String)
    (hnone : migrate_member_key m = "" ∨
      upsert_match (migrate_member_key m)
        (migrate_update (migrate_membership m gid now) gid now) st.people = none) :
    (migrate_member_to_store st m gid now fresh).people =
      st.people ++ [migrate_new_person m gid now fresh] := by
  simp only [migrate_member_to_store]
  by_cases hk : migrate_member_key m ≠ ""
  · rcases hnone with hke | hm
    · exact absurd hke hk
    · rw [if_pos hk, hm]
  · rw [if_neg hk]

theorem migrate_member_groups (st : Store) (m : OldMember) (gid now fresh : String) :
    (migrate_member_to_store st m gid now fresh).groups = st.groups := by
  simp only [migrate_member_to_store]
  by_cases hk : migrate_member_key m ≠ ""
  · rw [if_pos hk]
    cases hm : upsert_match (migrate_member_key m)
        (migrate_update (migrate_membership m gid now) gid now) st.people with
    | none => rfl
    | some r => rfl
  · rw [if_neg hk]

theorem migrate_new_person_dedupKey (m : OldMember) (gid now fresh : String) :
    (migrate_new_person m gid now fresh).dedupKey = migrate_member_key m := rfl

theorem migrate_member_uniqueDedup (st : Store) (m : OldMember) (gid now fresh : String)
    (h : uniqueDedup st) : uniqueDedup (migrate_member_to_store st m gid now fresh) := by
  intro key hkey
  by_cases hk : migrate_member_key m ≠ ""
  · cases hm : upsert_match (migrate_member_key m)
        (migrate_update (migrate_membership m gid now) gid now) st.people with
    | none =>
      rw [migrate_member_people_new st m gid now fresh (Or.inr hm), List.filter_append]
      have hnone := upsert_match_none_forall _ _ _ hm
      by_cases hkm : key = migrate_member_key m
      · have hempty : st.people.filter (fun p => p.dedupKey = key) = [] := by
          apply List.filter_eq_nil_iff.mpr
          intro q hq
          simp only [decide_eq_true_eq]
          rw [hkm]
          exact hnone q hq
        rw [hempty]
        simp only [List.filter_cons, migrate_new_person_dedupKey]
        split <;> simp
      · have hnp : ¬ ((migrate_new_person m gid now fresh).dedupKey = key) := by
          rw [migrate_new_person_dedupKey]
          exact fun hh => hkm hh.symm
        simp [List.filter_cons, hnp]
        exact h key hkey
    | some r =>
      rw [migrate_member_people_matched st m gid now fresh r hk hm]
      obtain ⟨pre, p, post, hl, _, _, hr⟩ := upsert_match_some_decomp _ _ _ _ hm
      rw [hr]
      have hco : ((pre ++ migrate_update (migrate_membership m gid now) gid now p :: post).filter
            (fun q => q.dedupKey = key)).length =
          ((pre ++ p :: post).filter (fun q => q.dedupKey = key)).length := by
        apply filter_length_congr_mid
        simp [migrate_update_dedupKey]
      rw [hco, ← hl]
      exact h key hkey
  · rw [migrate_member_people_new st m gid now fresh
      (Or.inl (by simpa using hk)), List.filter_append]
    have hke : migrate_member_key m = "" := by simpa using hk
    have hnp : ¬ ((migrate_new_person m gid now fresh).dedupKey = key) := by
      rw [migrate_new_person_dedupKey, hke]
      exact fun hh => hkey hh.symm
    simp [List.filter_cons, hnp]
    exact h key hkey

theorem migrate_member_membershipsNodup (st : Store) (m : OldMember)
    (gid now fresh : String) (h : membershipsNodup st) :
    membershipsNodup (migrate_member_to_store st m gid now fresh) := by
  intro q hq
  by_cases hk : migrate_member_key m ≠ ""
  · cases hm : upsert_match (migrate_member_key m)
        (migrate_update (migrate_membership m gid now) gid now) st.people with
    | none =>
      rw [migrate_member_people_new st m gid now fresh (Or.inr hm)] at hq
      rcases List.mem_append.mp hq with hq1 | hq2
      · exact h q hq1
      · have hqe : q = migrate_new_person m gid now fresh := by simpa using hq2
        rw [hqe]
        simp [migrate_new_person, migrate_membership]
    | some r =>
      rw [migrate_member_people_matched st m gid now fresh r hk hm] at hq
      obtain ⟨pre, p, post, hl, _, _, hr⟩ := upsert_match_some_decomp _ _ _ _ hm
      rw [hr] at hq
      rcases List.mem_append.mp hq with hq1 | hq2
      · exact h q (by rw [hl]; exact List.mem_append.mpr (Or.inl hq1))
      · rcases List.mem_cons.mp hq2 with hq3 | hq4
        · rw [hq3]
          apply migrate_update_nodup _ _ _ _ rfl
          exact h p (by rw [hl]; simp)
        · exact h q (by rw [hl]; simp [hq4])
  · rw [migrate_member_people_new st m gid now fresh (Or.inl (by simpa using hk))] at hq
    rcases List.mem_append.mp hq with hq1 | hq2
    · exact h q hq1
    · have hqe : q = migrate_new_person m gid now fresh := by simpa using hq2
      rw [hqe]
      simp [migrate_new_person, migrate_membership]

theorem migrate_member_hasKey_self (st : Store) (m : OldMember) (gid now fresh : String)
    (hk : migrate_member_key m ≠ "") :
    hasKeyMembership (migrate_member_to_store st m gid now fresh)
      (migrate_member_key m) gid := by
  cases hm : upsert_match (migrate_member_key m)
      (migrate_update (migrate_membership m gid now) gid now) st.people with
  | none =>
    refine ⟨migrate_new_person m gid now fresh, ?_, rfl, ?_⟩
    · rw [migrate_member_people_new st m gid now fresh (Or.inr hm)]
      simp
    · simp [migrate_new_person, migrate_membership]
  | some r =>
    obtain ⟨pre, p, post, hl, _, hp, hr⟩ := upsert_match_some_decomp _ _ _ _ hm
    refine ⟨migrate_update (migrate_membership m gid now) gid now p, ?_, ?_, ?_⟩
    · rw [migrate_member_people_matched st m gid now fresh r hk hm, hr]
      simp
    · rw [migrate_update_dedupKey]
      exact hp
    · exact migrate_update_any_self _ _ _ _ rfl

theorem migrate_member_hasKey_mono (st : Store) (m : OldMember)
    (gid now fresh k g : String) (h : hasKeyMembership st k g) :
    hasKeyMembership (migrate_member_to_store st m gid now fresh) k g := by
  obtain ⟨q, hq, hqk, hqany⟩ := h
  by_cases hk : migrate_member_key m ≠ ""
  · cases hm : upsert_match (migrate_member_key m)
        (migrate_update (migrate_membership m gid now) gid now) st.people with
    | none =>
      refine ⟨q, ?_, hqk, hqany⟩
      rw [migrate_member_people_new st m gid now fresh (Or.inr hm)]
      exact List.mem_append.mpr (Or.inl hq)
    | some r =>
      obtain ⟨pre, p, post, hl, hpre, hp, hr⟩ := upsert_match_some_decomp _ _ _ _ hm
      rw [hl] at hq
      rcases List.mem_append.mp hq with hq1 | hq2
      · refine ⟨q, ?_, hqk, hqany⟩
        rw [migrate_member_people_matched st m gid now fresh r hk hm, hr]
        exact List.mem_append.mpr (Or.inl hq1)
      · rcases List.mem_cons.mp hq2 with hq3 | hq4
        · refine ⟨migrate_update (migrate_membership m gid now) gid now p, ?_, ?_, ?_⟩
          · rw [migrate_member_people_matched st m gid now fresh r hk hm, hr]
            simp
          · rw [migrate_update_dedupKey, ← hq3]
            exact hqk
          · exact migrate_update_any_mono _ _ _ _ _ (by rw [← hq3]; exact hqany)
        · refine ⟨q, ?_, hqk, hqany⟩
          rw [migrate_member_people_matched st m gid now fresh r hk hm, hr]
          simp [hq4]
  · refine ⟨q, ?_, hqk, hqany⟩
    rw [migrate_member_people_new st m gid now fresh (Or.inl (by simpa using hk))]
    exact List.mem_append.mpr (Or.inl hq)

theorem migrate_members_uniqueDedup (now : String) (fresh : Nat → String) (gid : String) :
    ∀ (ms : List OldMember) (n : Nat) (st : Store), uniqueDedup st →
      uniqueDedup (migrate_members now fresh gid ms n st) := by
  intro ms
  induction ms with
  | nil => intro n st h; exact h
  | cons m rest ih =>
    intro n st h
    exact ih _ _ (migrate_member_uniqueDedup _ _ _ _ _ h)

theorem migrate_members_membershipsNodup (now : String) (fresh : Nat → String)
    (gid : String) :
    ∀ (ms : List OldMember) (n : Nat) (st : Store), membershipsNodup st →
      membershipsNodup (migrate_members now fresh gid ms n st) := by
  intro ms
  induction ms with
  | nil => intro n st h; exact h
  | cons m rest ih =>
    intro n st h
    exact ih _ _ (migrate_member_membershipsNodup _ _ _ _ _ h)

theorem migrate_members_hasKey_mono (now : String) (fresh : Nat → String)
    (gid : String) (k g : String) :
    ∀ (ms : List OldMember) (n : Nat) (st : Store), hasKeyMembership st k g →
      hasKeyMembership (migrate_members now fresh gid ms n st) k g := by
  intro ms
  induction ms with
  | nil => intro n st h; exact h
  | cons m rest ih =>
    intro n st h
    exact ih _ _ (migrate_member_hasKey_mono _ _ _ _ _ _ _ h)

theorem migrate_members_hasKey (now : String) (fresh : Nat → String) (gid : String) :
    ∀ (ms : List OldMember) (n : Nat) (st : Store) (m : OldMember), m ∈ ms →
      migrate_member_key m ≠ "" →
      hasKeyMembership (migrate_members now fresh gid ms n st)
        (migrate_member_key m) gid := by
  intro ms
  induction ms with
  | nil => intro _ _ _ hm; cases hm
  | cons m0 rest ih =>
    intro n st m hm hk
    rcases List.mem_cons.mp hm with h1 | h2
    · subst h1
      exact migrate_members_hasKey_mono now fresh gid _ gid rest _ _
        (migrate_member_hasKey_self st m gid now (fresh n) hk)
    · exact ih _ _ m h2 hk

theorem migrate_teams_uniqueDedup (now : String) (fresh : Nat → String) :
    ∀ (ts : List OldTeam) (n : Nat) (st : Store), uniqueDedup st →
      uniqueDedup (migrate_teams now fresh ts n st) := by
  intro ts
  induction ts with
  | nil => intro n st h; exact h
  | cons t rest ih =>
    intro n st h
    apply ih
    apply migrate_members_uniqueDedup
    intro key hkey
    exact h key hkey

theorem migrate_teams_membershipsNodup (now : String) (fresh : Nat → String) :
    ∀ (ts : List OldTeam) (n : Nat) (st : Store), membershipsNodup st →
      membershipsNodup (migrate_teams now fresh ts n st) := by
  intro ts
  induction ts with
  | nil => intro n st h; exact h
  | cons t rest ih =>
    intro n st h
    apply ih
    apply migrate_members_membershipsNodup
    intro p hp
    exact h p hp

theorem migrate_teams_hasKey_mono (now : String) (fresh : Nat → String) (k g : String) :
    ∀ (ts : List OldTeam) (n : Nat) (st : Store), hasKeyMembership st k g →
      hasKeyMembership (migrate_teams now fresh ts n st) k g := by
  intro ts
  induction ts with
  | nil => intro n st h; exact h
  | cons t rest ih =>
    intro n st h
    apply ih
    apply migrate_members_hasKey_mono
    obtain ⟨p, hp, h1, h2⟩ := h
    exact ⟨p, hp, h1, h2⟩

theorem migrate_teams_hasKey (now : String) (fresh : Nat → String) :
    ∀ (ts : List OldTeam) (n : Nat) (st : Store) (t : OldTeam) (m : OldMember)
      (g0 : String), t ∈ ts → m ∈ t.members → t.id = some g0 →
      migrate_member_key m ≠ "" →
      hasKeyMembership (migrate_teams now fresh ts n st) (migrate_member_key m) g0 := by
  intro ts
  induction ts with
  | nil => intro _ _ _ _ _ ht; cases ht
  | cons t0 rest ih =>
    intro n st t m g0 ht hm hg hk
    rcases List.mem_cons.mp ht with h1 | h2
    · have hm0 : m ∈ t0.members := by rw [← h1]; exact hm
      have hg0 : t0.id = some g0 := by rw [← h1]; exact hg
      have hgid : t0.id.getD (fresh n) = g0 := by rw [hg0]; rfl
      simp only [migrate_teams]
      rw [hgid]
      apply migrate_teams_hasKey_mono
      apply migrate_members_hasKey
      · exact hm0
      · exact hk
    · exact ih _ _ t m g0 h2 hm hg hk

theorem eq_of_length_le_one {α : Type} (l : List α) (h : l.length ≤ 1)
    (a b : α) (ha : a ∈ l) (hb : b ∈ l) : a = b := by
  match l with
  | [] => cases ha
  | [x] => rw [List.mem_singleton.mp ha, List.mem_singleton.mp hb]
  | x :: y :: t => simp at h

/-- C9: migrating a team-shaped v1 payload merges dedup collisions across
teams: any two legacy members (from any two teams with explicit ids) whose
recomputed dedup keys are equal and non-empty end up as a single person —
exactly one person in the migrated store carries that key — and that person
holds exactly one membership for each of the two teams, with all its
membership group ids pairwise distinct. -/
theorem claim_C9_v1_migration_dedup
    (teams : List OldTeam) (now : String) (fresh : Nat → String)
    (t1 t2 : OldTeam) (m1 m2 : OldMember) (g1 g2 k : String)
    (ht1 : t1 ∈ teams) (ht2 : t2 ∈ teams)
    (hm1 : m1 ∈ t1.members) (hm2 : m2 ∈ t2.members)
    (hg1 : t1.id = some g1) (hg2 : t2.id = some g2)
    (hk1 : migrate_member_key m1 = k) (hk2 : migrate_member_key m2 = k)
    (hk : k ≠ "") :
    ((migrate_from_v1_teams teams now fresh).people.filter
      (fun p => p.dedupKey = k)).length = 1 ∧
    ∃ p ∈ (migrate_from_v1_teams teams now fresh).people,
      p.dedupKey = k ∧
      (p.memberships.map (fun m => m.group_id)).Nodup ∧
      (p.memberships.filter (fun m => m.group_id = g1)).length = 1 ∧
      (p.memberships.filter (fun m => m.group_id = g2)).length = 1 := by
  simp only [migrate_from_v1_teams]
  have hu : uniqueDedup (migrate_teams now fresh teams 0 empty_org_store) := by
    apply migrate_teams_uniqueDedup
    intro key _
    simp [empty_org_store, uniqueDedup]
  have hn : membershipsNodup (migrate_teams now fresh teams 0 empty_org_store) := by
    apply migrate_teams_membershipsNodup
    intro p hp
    simp [empty_org_store] at hp
  have h1 : hasKeyMembership (migrate_teams now fresh teams 0 empty_org_store) k g1 := by
    rw [← hk1]
    exact migrate_teams_hasKey now fresh teams 0 empty_org_store t1 m1 g1 ht1 hm1 hg1
      (by rw [hk1]; exact hk)
  have h2 : hasKeyMembership (migrate_teams now fresh teams 0 empty_org_store) k g2 := by
    rw [← hk2]
    exact migrate_teams_hasKey now fresh teams 0 empty_org_store t2 m2 g2 ht2 hm2 hg2
      (by rw [hk2]; exact hk)
  obtain ⟨pa, hpa, hpak, hpaany⟩ := h1
  obtain ⟨pb, hpb, hpbk, hpbany⟩ := h2
  have hle := hu k hk
  have hain : pa ∈ (migrate_teams now fresh teams 0 empty_org_store).people.filter
      (fun p => p.dedupKey = k) := List.mem_filter.mpr ⟨hpa, by simp [hpak]⟩
  have hbin : pb ∈ (migrate_teams now fresh teams 0 empty_org_store).people.filter
      (fun p => p.dedupKey = k) := List.mem_filter.mpr ⟨hpb, by simp [hpbk]⟩
  have heq : pa = pb := eq_of_length_le_one _ hle pa pb hain hbin
  constructor
  · have hpos : 0 < ((migrate_teams now fresh teams 0 empty_org_store).people.filter
        (fun p => p.dedupKey = k)).length :=
      List.length_pos.mpr (List.ne_nil_of_mem hain)
    omega
  · refine ⟨pa, hpa, hpak, hn pa hpa, ?_, ?_⟩
    · exact filter_group_length_one g1 _ (hn pa hpa) ((any_group_iff g1 _).mp hpaany)
    · rw [heq]
      exact filter_group_length_one g2 _ (hn pb hpb) ((any_group_iff g2 _).mp hpbany)

def wOldM1 : OldMember :=
  { id := some "m1", name := some "A", source := some "file", created_at := some "c1",
    profile := some (Val.vDict [("电话", Val.vStr "138 000")]) }

def wOldM2 : OldMember :=
  { id := some "m2", name := some "B", source := some "text", created_at := some "c2",
    profile := some (Val.vDict [("电话", Val.vStr "138-000")]) }

def wTeam1 : OldTeam :=
  { id := some "tA", name := some "Team A", created_at := some "c", members := [wOldM1] }

def wTeam2 : OldTeam :=
  { id := some "tB", name := some "Team B", created_at := some "c", members := [wOldM2] }

theorem claim_C9_v1_migration_dedup_witness :
    ((migrate_from_v1_teams [wTeam1, wTeam2] "t" (fun _ => "u")).people.filter
      (fun p => p.dedupKey = "phone:138000")).length = 1 ∧
    ∃ p ∈ (migrate_from_v1_teams [wTeam1, wTeam2] "t" (fun _ => "u")).people,
      p.dedupKey = "phone:138000" ∧
      (p.memberships.map (fun m => m.group_id)).Nodup ∧
      (p.memberships.filter (fun m => m.group_id = "tA")).length = 1 ∧
      (p.memberships.filter (fun m => m.group_id = "tB")).length = 1 :=
  claim_C9_v1_migration_dedup [wTeam1, wTeam2] "t" (fun _ => "u")
    wTeam1 wTeam2 wOldM1 wOldM2 "tA" "tB" "phone:138000"
    (by simp) (by simp) (by simp [wTeam1]) (by simp [wTeam2])
    (by rfl) (by rfl) (by rfl) (by rfl) (by decide)
